import Mathlib

/-!
# BASIL interface of slurmctld

A shallow embedding of `src/slurmctld/basil_interface.c` (both the
`HAVE_BASIL` build and the build without it) and of the string helpers of
`src/common/xstring.c` it uses, followed by theorems about them.

Conventions of the embedding

* A C string is a Lean `String`; a nullable `char *` is an `Option String`.
* A pointer into `node_record_table_ptr` is an index into the list of records.
* `int` values are `Int`s kept in range by `to_int` (32 bit wrap-around).
* Calls into other parts of slurmctld that have no definition in these two
  files (`set_node_down`, `_sync_bitmaps`, `basil_dealloc`, the assignment of
  `last_node_update`) are recorded, in program order, in the field `calls`.
  Logging calls (`debug`, `info`, `error`) have no effect on the state and
  are left out.
* A local variable the source reads before giving it a value is an input of
  the function: `stack_value` is what the variable holds on entry.
* The `HAVE_BASIL` branch of the source is written with placeholders
  (`request_failure`, `each_basil_node`, `each_basil_reservation`); they are
  the inputs `request_failure` and `basil_reply` of `HAVE_BASIL.basil_query`.
-/

namespace Slurm

/-! ## Integers and constants -/

/-- Largest value of a C `int`. -/
def INT_MAX : Int := 2147483647

/-- Smallest value of a C `int`. -/
def INT_MIN : Int := -2147483648

/-- Value stored in an `int` object: the mathematical value reduced to
32 bits in two's complement. -/
def to_int (x : Int) : Int := (x + 2147483648) % 4294967296 - 2147483648

/-- Modelled from the spec: the "success" value of the status channel;
`slurm_errno.h` is not among the sources. -/
def SLURM_SUCCESS : Int := 0

/-- Modelled from the spec: the "generic error" value of the status channel;
`slurm_errno.h` is not among the sources. -/
def SLURM_ERROR : Int := -1

/-- Modelled from the spec: the sentinel external node id meaning
"unassigned"; `slurm.h` is not among the sources, the value is the one of
SLURM's public header. -/
def NO_VAL : Nat := 0xfffffffe

/-- Modelled from the spec: the DOWN base state; `slurm.h` is not among
the sources, the value is the one of SLURM's public header. -/
def NODE_STATE_DOWN : Nat := 1

/-- Modelled from the spec: the base-state mask of a node state; `slurm.h` is
not among the sources, the value is the one of SLURM's public header. -/
def NODE_STATE_BASE : Nat := 0x00ff

/-- Modelled from the spec: the complement of the base-state mask within the
16 bit node state; `slurm.h` is not among the sources. -/
def NODE_STATE_FLAGS : Nat := 0xff00

/-! ## Data model -/

/-- Baseline configuration of a node (`struct config_record`), the fields
`basil_query` reads. -/
structure config_record where
  cpus : Nat
  real_memory : Nat
deriving DecidableEq, Repr

/-- Node record (`struct node_record`), the fields `basil_interface.c` touches. -/
structure node_record where
  name : String
  arch : Option String
  cpus : Nat
  real_memory : Nat
  state : Nat
  basil_node_id : Nat
  config_ptr : config_record
deriving DecidableEq, Repr

/-- Job record (`struct job_record`): the job id and the reservation id that
`select_g_get_jobinfo(.., SELECT_DATA_BLOCK_ID, &res_id)` reads from
`select_jobinfo`. -/
structure job_record where
  job_id : Nat
  select_jobinfo : String
deriving DecidableEq, Repr

/-- One node as reported by BASIL: the variables `basil_node_name`,
`basil_node_arch`, `basil_node_id`, `basil_state`, `basil_role`, `basil_cpus`
and `basil_memory` of one iteration of `for (each_basil_node)`. -/
structure basil_node where
  basil_node_name : String
  basil_node_arch : Option String
  basil_node_id : Nat
  basil_state : String
  basil_role : String
  basil_cpus : Nat
  basil_memory : Nat
deriving DecidableEq, Repr

/-- Reply to the BASIL QUERY request: the nodes of `for (each_basil_node)` and
the reservation ids of `for (each_basil_reservation)`, in iteration order. -/
structure basil_reply where
  nodes : List basil_node
  reservations : List String
deriving DecidableEq, Repr

/-- Calls that leave `basil_interface.c`, as recorded in program order. -/
inductive Event where
  | last_node_update
  | set_node_down (name : String) (reason : String)
  | _sync_bitmaps (node_inx : Nat)
  | basil_dealloc (reservation_id : String)
deriving DecidableEq, Repr

/-- Global state of slurmctld that `basil_interface.c` reads and writes. -/
structure slurmctld where
  node_record_table_ptr : List node_record
  job_list : List job_record
  fast_schedule : Nat
  last_res_id : Int
  calls : List Event
deriving DecidableEq, Repr

/-- Number of records of the node table (`node_record_cnt`). -/
def node_record_cnt (st : slurmctld) : Nat := st.node_record_table_ptr.length

/-! ## libc -/

/-- C `isspace` in the "C" locale. -/
def isspace (c : Char) : Bool :=
  c = ' ' || c = '\t' || c = '\n' || c = '\x0b' || c = '\x0c' || c = '\r'

/-- C `isdigit`. -/
def isdigit (c : Char) : Bool := 48 ≤ c.toNat && c.toNat ≤ 57

/-- C `strchr(s, c)`: the tail of `s` that starts at the first `c`, `none`
(NULL) when `c` does not occur. -/
def strchr : List Char → Char → Option (List Char)
  | [], _ => none
  | x :: xs, c => if x = c then some (x :: xs) else strchr xs c

/-- Digit loop of `atoi`: reads decimal digits up to the first other
character. -/
def atoi_digits : List Char → Int → Int
  | [], acc => acc
  | c :: cs, acc =>
    if isdigit c then atoi_digits cs (acc * 10 + ((c.toNat : Int) - 48)) else acc

/-- C `atoi`: skips white space, reads an optional sign and decimal digits;
the result is an `int`. -/
def atoi (s : List Char) : Int :=
  match s.dropWhile isspace with
  | '-' :: cs => to_int (- atoi_digits cs 0)
  | '+' :: cs => to_int (atoi_digits cs 0)
  | cs => to_int (atoi_digits cs 0)

/-- The conversion `%d` of the printf family. -/
def fmt_d (i : Int) : String := toString i

/-! ## xstring.c -/

/-- Heap string of `xmalloc`: allocated size (`xsize`) and the characters
before the terminating NUL. -/
structure xstr where
  xsize : Nat
  str : String
deriving DecidableEq, Repr

/-- The constant `XFGETS_CHUNKSIZE`. -/
def XFGETS_CHUNKSIZE : Nat := 64

/-- The `while (used + needed > xsize(*str))` loop of `makespace`; `fuel`
bounds the number of iterations. -/
def makespace_grow : Nat → Nat → Nat → Nat
  | 0, _, size => size
  | fuel + 1, want, size =>
    if want > size then makespace_grow fuel want (size + XFGETS_CHUNKSIZE) else size

/-- `makespace`: make sure the string has room for `needed` more characters. -/
def makespace (str : Option xstr) (needed : Nat) : xstr :=
  match str with
  | none => { xsize := needed + 1, str := "" }
  | some s =>
    let used := s.str.length + 1
    { s with xsize := makespace_grow (used + needed) (used + needed) s.xsize }

/-- `_xstrcat`: concatenate `str2` onto `str1`, expanding `str1` as needed. -/
def _xstrcat (str1 : Option xstr) (str2 : Option String) : xstr :=
  let str2 := match str2 with
    | none => "(null)"
    | some s => s
  let s := makespace str1 str2.length
  { s with str := s.str ++ str2 }

/-- `strcatchar`: append one char to str and null terminate. -/
def strcatchar (str : String) (c : Char) : String := str.push c

/-- `_xstrcatchar`: add a character to str, expanding it as needed. -/
def _xstrcatchar (str : Option xstr) (c : Char) : xstr :=
  let s := makespace str 1
  { s with str := strcatchar s.str c }

/-- `xstrdup`: duplicate a string, NULL for NULL. -/
def xstrdup (str : Option String) : Option String :=
  match str with
  | none => none
  | some s => some s

/-- Modelled from the spec: `xstrfmtcat(str, "RES_%d", n)`; the macro and
`_xstrfmtcat` are not among the sources: the formatted text is appended with
`_xstrcat`. -/
def xstrfmtcat_RES (str : Option xstr) (n : Int) : xstr :=
  _xstrcat str (some ("RES_" ++ fmt_d n))

/-! ## Node table operations of slurmctld used by the interface -/

/-- Modelled from the spec: `find_node_record` of node_mgr.c, the "node-table
lookup by name": the first record with that name, `none` (NULL) when there
is none. -/
def find_node_record : List node_record → String → Option Nat
  | [], _ => none
  | n :: rest, name =>
    if n.name = name then some 0 else (find_node_record rest name).map (· + 1)

/-- State word of a node that was set DOWN: base state DOWN, the other bits
kept. -/
def node_state_down (state : Nat) : Nat :=
  NODE_STATE_DOWN ||| (state &&& NODE_STATE_FLAGS)

/-- Modelled from the spec: `set_node_down` of node_mgr.c, the global "set
node down with reason" operation: the record found by name gets base state
DOWN; an unknown name changes nothing. The reason is kept in the record of
the call. -/
def set_node_down (table : List node_record) (name : String) : List node_record :=
  match find_node_record table name with
  | none => table
  | some i =>
    match table[i]? with
    | none => table
    | some n => table.set i { n with state := node_state_down n.state }

/-! ## basil_interface.c, built with HAVE_BASIL -/

namespace HAVE_BASIL

/-- The statements of `_validate_basil_node_id` that follow its `for`
statement, acting on the record `node_ptr` points to. -/
def _validate_basil_node_id_tail (st : slurmctld) (i : Nat) (node_ptr : node_record) :
    slurmctld :=
  let base_state := node_ptr.state &&& NODE_STATE_BASE
  if base_state = NODE_STATE_DOWN then st
  else
    { st with
      node_record_table_ptr := set_node_down st.node_record_table_ptr node_ptr.name
      calls := st.calls ++ [Event.last_node_update,
        Event.set_node_down node_ptr.name "No BASIL node_id", Event._sync_bitmaps i] }

/-- `_validate_basil_node_id`. The `for` statement of the source has no
braces, so its body is the single statement
`if (node_ptr->basil_node_id != NO_VAL) continue;`: the loop only advances
`i` and `node_ptr` to the end of the table. The statements after it run once
with `node_ptr` one past the last record, where the table has no record. -/
def _validate_basil_node_id (st : slurmctld) : slurmctld :=
  let i := st.node_record_table_ptr.foldl
    (fun i node_ptr => if node_ptr.basil_node_id ≠ NO_VAL then i + 1 else i + 1) 0
  match st.node_record_table_ptr[i]? with
  | none => st
  | some node_ptr => _validate_basil_node_id_tail st i node_ptr

/-- The value of `reason` after lines 135-159 of `basil_query`, for the node
record `node_ptr` (as it is when the state is read) and the BASIL node `b`. -/
def basil_reason (fast_schedule : Nat) (node_ptr : node_record) (b : basil_node) :
    Option String :=
  let reason : Option String := none
  let base_state := node_ptr.state &&& NODE_STATE_BASE
  let reason :=
    if base_state ≠ NODE_STATE_DOWN then
      if b.basil_state ≠ "UP" then some "basil state not UP"
      else if b.basil_role ≠ "BATCH" then some "basil role not BATCH"
      else reason
    else reason
  let config_ptr := node_ptr.config_ptr
  let reason :=
    if fast_schedule ≠ 2 ∧ b.basil_cpus < config_ptr.cpus then some "Low CPUs"
    else reason
  let reason :=
    if fast_schedule ≠ 2 ∧ b.basil_memory < config_ptr.real_memory then
      some "Low RealMemory"
    else reason
  reason

/-- The assignments to the fields of `*node_ptr` in one iteration of
`for (each_basil_node)`: node id, architecture, cpus and real memory. -/
def basil_node_fields (node_ptr : node_record) (b : basil_node) : node_record :=
  let node_ptr := { node_ptr with basil_node_id := b.basil_node_id }
  let node_ptr :=
    if node_ptr.arch = none then { node_ptr with arch := xstrdup b.basil_node_arch }
    else node_ptr
  let node_ptr := { node_ptr with cpus := b.basil_cpus }
  { node_ptr with real_memory := b.basil_memory }

/-- One iteration of `for (each_basil_node)` in `basil_query`. -/
def basil_query_node (st : slurmctld) (b : basil_node) : slurmctld :=
  match find_node_record st.node_record_table_ptr b.basil_node_name with
  | none => st
  | some i =>
    match st.node_record_table_ptr[i]? with
    | none => st
    | some node_ptr =>
      let reason := basil_reason st.fast_schedule node_ptr b
      let table := st.node_record_table_ptr.set i (basil_node_fields node_ptr b)
      match reason with
      | none => { st with node_record_table_ptr := table }
      | some r =>
        { st with
          node_record_table_ptr := set_node_down table node_ptr.name
          calls := st.calls ++ [Event.last_node_update,
            Event.set_node_down node_ptr.name r, Event._sync_bitmaps i] }

/-- The record one iteration of `for (each_basil_node)` leaves in place of the
record `node_ptr` it found: the field assignments, and base state DOWN when a
reason was produced. -/
def node_step (fast_schedule : Nat) (node_ptr : node_record) (b : basil_node) : node_record :=
  match basil_reason fast_schedule node_ptr b with
  | none => basil_node_fields node_ptr b
  | some _ => { basil_node_fields node_ptr b with state := node_state_down node_ptr.state }

/-- The calls one iteration of `for (each_basil_node)` records for the record
`node_ptr` it found at index `i`. -/
def node_calls (fast_schedule : Nat) (i : Nat) (node_ptr : node_record) (b : basil_node) :
    List Event :=
  match basil_reason fast_schedule node_ptr b with
  | none => []
  | some r => [Event.last_node_update, Event.set_node_down node_ptr.name r,
      Event._sync_bitmaps i]

/-- The node table after one iteration of `for (each_basil_node)`. -/
def node_pass (fast_schedule : Nat) (table : List node_record) (b : basil_node) :
    List node_record :=
  match find_node_record table b.basil_node_name with
  | none => table
  | some i =>
    match table[i]? with
    | none => table
    | some node_ptr => table.set i (node_step fast_schedule node_ptr b)

/-- The calls recorded by one iteration of `for (each_basil_node)`. -/
def pass_calls (fast_schedule : Nat) (table : List node_record) (b : basil_node) :
    List Event :=
  match find_node_record table b.basil_node_name with
  | none => []
  | some i =>
    match table[i]? with
    | none => []
    | some node_ptr => node_calls fast_schedule i node_ptr b

/-- The calls recorded by the whole loop `for (each_basil_node)`, in order. -/
def loop_calls (fast_schedule : Nat) : List node_record → List basil_node → List Event
  | _, [] => []
  | table, b :: rest =>
    pass_calls fast_schedule table b ++
      loop_calls fast_schedule (node_pass fast_schedule table b) rest

/-- What the loop `for (each_basil_node)` does to one record that
`find_node_record` returns for its name: the BASIL nodes of that name are
applied in order. -/
def node_fold (fast_schedule : Nat) (node_ptr : node_record) (nodes : List basil_node) :
    node_record :=
  nodes.foldl (fun m b =>
    if b.basil_node_name = m.name then node_step fast_schedule m b else m) node_ptr

/-- The `while ((job_ptr = list_next(job_iterator)))` loop of the reservation
check: the value of `found` when the loop ends. -/
def basil_job_scan (basil_reservation_id : String) : List job_record → Bool → Bool
  | [], found => found
  | job_ptr :: rest, _ =>
    let res_id := job_ptr.select_jobinfo
    let found := decide (res_id = basil_reservation_id)
    if found then found else basil_job_scan basil_reservation_id rest found

/-- One iteration of `for (each_basil_reservation)` in `basil_query`. -/
def basil_query_reservation (st : slurmctld) (basil_reservation_id : String) : slurmctld :=
  let found := basil_job_scan basil_reservation_id st.job_list false
  if found then
    { st with calls := st.calls ++ [Event.basil_dealloc basil_reservation_id] }
  else st

/-- Modelled from the spec: `fatal` of log.c is not among the sources. A failed
request is "fatal to the current pass" and "surfaced to the caller": the call
reports the error and returns, with the state as it is. -/
def fatal (st : slurmctld) : slurmctld := st

/-- `basil_query` with HAVE_BASIL: query BASIL for node and reservation
state. Returns the error code and the new state. On a failed request the
source calls `fatal` and then returns `SLURM_ERROR`; nothing was written to
the state before that point. -/
def basil_query (request_failure : Bool) (reply : basil_reply) (st : slurmctld) :
    Int × slurmctld :=
  let error_code := SLURM_SUCCESS
  if request_failure then (SLURM_ERROR, fatal st)
  else
    let st := reply.nodes.foldl basil_query_node st
    let st := _validate_basil_node_id st
    let st := reply.reservations.foldl basil_query_reservation st
    (error_code, st)

/-- `basil_reserve` with HAVE_BASIL. -/
def basil_reserve (request_failure : Bool) (st : slurmctld) (_job_ptr : job_record) :
    Int × slurmctld :=
  let error_code := SLURM_SUCCESS
  if request_failure then (SLURM_ERROR, st) else (error_code, st)

/-- `basil_release` with HAVE_BASIL. -/
def basil_release (request_failure : Bool) (st : slurmctld) (_reservation_id : String) :
    Int × slurmctld :=
  let error_code := SLURM_SUCCESS
  if request_failure then (SLURM_ERROR, st) else (error_code, st)

/-- A second pass with the same reply, started from the state the first pass
left, with the record of calls emptied in between. -/
def second_pass (reply : basil_reply) (st : slurmctld) : Int × slurmctld :=
  basil_query false reply { (basil_query false reply st).2 with calls := [] }

end HAVE_BASIL

/-! ## Scenarios A and B of the specification -/

/-- Node "n1" of scenarios A and B: baseline 16 cpus and 65536 MB, base state
2 (not DOWN), no BASIL node id yet. -/
def scenario_n1 : node_record :=
  { name := "n1", arch := none, cpus := 16, real_memory := 65536, state := 2,
    basil_node_id := NO_VAL, config_ptr := { cpus := 16, real_memory := 65536 } }

/-- State of scenarios A and B: node table with "n1" only, no job, strict
validation (`fast_schedule = 1`). -/
def scenario_state : slurmctld :=
  { node_record_table_ptr := [scenario_n1], job_list := [], fast_schedule := 1,
    last_res_id := 0, calls := [] }

/-- BASIL node of scenario A: "n1" UP, BATCH, 16 cpus, 65536 MB, node id 5. -/
def scenario_A : basil_node :=
  { basil_node_name := "n1", basil_node_arch := some "XT", basil_node_id := 5,
    basil_state := "UP", basil_role := "BATCH", basil_cpus := 16, basil_memory := 65536 }

/-- BASIL node of scenario B: as scenario A with 8 cpus. -/
def scenario_B : basil_node := { scenario_A with basil_cpus := 8 }

/-! ## basil_interface.c, built without HAVE_BASIL -/

namespace NO_BASIL

/-- The number `job_res_id` the job loop of `basil_query` reads from the
reservation id of a job: `atoi(tmp+1)` for `tmp = strchr(res_id, '_')`,
`none` when `tmp` is NULL. -/
def job_res_id (job_ptr : job_record) : Option Int :=
  let res_id := job_ptr.select_jobinfo.toList
  match strchr res_id '_' with
  | none => none
  | some tmp => some (atoi (tmp.drop 1))

/-- Body of the job loop of `basil_query`: the new value of `last_res_id`. -/
def basil_query_job (last_res_id : Int) (job_ptr : job_record) : Int :=
  match job_res_id job_ptr with
  | none => last_res_id
  | some job_res_id => max last_res_id job_res_id

/-- `basil_query` without HAVE_BASIL. -/
def basil_query (st : slurmctld) : Int × slurmctld :=
  let error_code := SLURM_SUCCESS
  let st := { st with last_res_id := st.job_list.foldl basil_query_job st.last_res_id }
  (error_code, st)

/-- What an uninitialised `char *` local holds when it is first read: NULL,
the address of a string of `xmalloc`, or anything else. The source declares
`char *reservation_id;` without an initialiser (basil_interface.c:231) and
hands it to `xstrfmtcat`, which appends to the string it points to. -/
inductive stack_value where
  | null
  | string (s : xstr)
  | wild
deriving DecidableEq, Repr

/-- `basil_reserve` without HAVE_BASIL. `reservation_id` is what the
uninitialised local holds on entry. The result is `none` when the call does
not return: for a pointer that is neither NULL nor a string of `xmalloc`,
`makespace` reads through it and asks for its `xsize`. Otherwise the third
component is the string `reservation_id` points to after `xstrfmtcat`, which
the function only writes to the debug log. -/
def basil_reserve (st : slurmctld) (_job_ptr : job_record) (reservation_id : stack_value) :
    Option (Int × slurmctld × String) :=
  let error_code := SLURM_SUCCESS
  let st := { st with last_res_id := to_int (st.last_res_id + 1) }
  match reservation_id with
  | stack_value.wild => none
  | stack_value.null =>
    let reservation_id := xstrfmtcat_RES none st.last_res_id
    some (error_code, st, reservation_id.str)
  | stack_value.string s =>
    let reservation_id := xstrfmtcat_RES (some s) st.last_res_id
    some (error_code, st, reservation_id.str)

/-- `basil_release` without HAVE_BASIL. -/
def basil_release (st : slurmctld) (_reservation_id : String) : Int × slurmctld :=
  let error_code := SLURM_SUCCESS
  (error_code, st)

/-- One call of the interface during the life of the process. The job table
belongs to the rest of slurmctld and may have changed since the previous
call: each call comes with the job table it finds, and a `basil_reserve` with
what its uninitialised local holds. -/
inductive Call where
  | basil_query (job_list : List job_record)
  | basil_reserve (job_list : List job_record) (job_ptr : job_record)
      (reservation_id : stack_value)
  | basil_release (job_list : List job_record) (reservation_id : String)
deriving DecidableEq, Repr

/-- Run one call: the new state and the reservation id the call generated,
if it is a `basil_reserve`; `none` when the call does not return. -/
def run_call (st : slurmctld) : Call → Option (slurmctld × Option String)
  | Call.basil_query job_list => some ((basil_query { st with job_list := job_list }).2, none)
  | Call.basil_reserve job_list job_ptr reservation_id =>
    match basil_reserve { st with job_list := job_list } job_ptr reservation_id with
    | none => none
    | some r => some (r.2.1, some r.2.2)
  | Call.basil_release job_list reservation_id =>
    some ((basil_release { st with job_list := job_list } reservation_id).2, none)

/-- Run a sequence of calls, up to the first call that does not return, where
the process ends: the last state and the reservation ids generated, in
order. -/
def run_calls (st : slurmctld) : List Call → slurmctld × List String
  | [] => (st, [])
  | c :: cs =>
    match run_call st c with
    | none => (st, [])
    | some r =>
      let rest := run_calls r.1 cs
      (rest.1, (match r.2 with
        | none => []
        | some id => [id]) ++ rest.2)

/-- No `++last_res_id` of the run starts from `INT_MAX`. -/
def no_overflow (st : slurmctld) : List Call → Prop
  | [] => True
  | c :: cs =>
    (match c with
      | Call.basil_reserve _ _ _ => st.last_res_id < INT_MAX
      | _ => True) ∧
    (match run_call st c with
      | none => True
      | some r => no_overflow r.1 cs)

end NO_BASIL

end Slurm

/-! ## The identity sweep and the reservation check -/

namespace Slurm

namespace HAVE_BASIL

/-- The `for` statement of `_validate_basil_node_id` leaves `i` at the number
of records it walked over. -/
theorem validate_loop_index (table : List node_record) (k : Nat) :
    table.foldl (fun i node_ptr => if node_ptr.basil_node_id ≠ NO_VAL then i + 1 else i + 1) k
      = k + table.length := by
  induction table generalizing k with
  | nil => simp
  | cons n rest ih =>
    rw [List.foldl_cons, ih, List.length_cons]
    split <;> omega

/-- As written, `_validate_basil_node_id` changes nothing: after the loop
`node_ptr` is past the last record. -/
theorem validate_basil_node_id_eq (st : slurmctld) : _validate_basil_node_id st = st := by
  unfold _validate_basil_node_id
  simp only [validate_loop_index, Nat.zero_add]
  rw [List.getElem?_eq_none (Nat.le_refl _)]

/-- The job loop of the reservation check ends with `found` set exactly when
some job holds the reservation id. -/
theorem basil_job_scan_eq (id : String) (jobs : List job_record) (b : Bool) :
    basil_job_scan id jobs b
      = if jobs = [] then b else jobs.any (fun j => decide (j.select_jobinfo = id)) := by
  induction jobs generalizing b with
  | nil => simp [basil_job_scan]
  | cons j rest ih =>
    simp only [basil_job_scan, List.any_cons, reduceCtorEq, if_false]
    by_cases h : j.select_jobinfo = id
    · simp [h]
    · simp only [h, decide_False, Bool.false_eq_true, if_false, Bool.false_or]
      rw [ih]
      cases rest <;> simp

/-- The reservation loop appends one `basil_dealloc` call for every BASIL
reservation id that some job holds, and nothing else. -/
theorem reservation_loop_eq (rs : List String) (st : slurmctld) :
    rs.foldl basil_query_reservation st
      = { st with
          calls := st.calls ++ List.map Event.basil_dealloc
            (List.filter (fun r => st.job_list.any (fun j => decide (j.select_jobinfo = r))) rs) } := by
  induction rs generalizing st with
  | nil => simp
  | cons r rest ih =>
    simp only [List.foldl_cons]
    rw [ih]
    unfold basil_query_reservation
    simp only [basil_job_scan_eq]
    by_cases hj : st.job_list = []
    · simp [hj]
    · simp only [hj, if_false]
      by_cases hr : (st.job_list.any (fun j => decide (j.select_jobinfo = r))) = true
      · simp [hr, List.filter_cons]
      · simp [hr, List.filter_cons]

end HAVE_BASIL

/-- C1 (the code departs from the claim): with no job at all and the BASIL
reservation "R1" in the reply, the pass succeeds and issues no `basil_dealloc`
call, where the claim asks for exactly one release of the orphaned id. -/
theorem C1_orphan_reservation_is_not_released :
    (HAVE_BASIL.basil_query false ⟨[], ["R1"]⟩ ⟨[], [], 1, 0, []⟩).1 = SLURM_SUCCESS ∧
    (HAVE_BASIL.basil_query false ⟨[], ["R1"]⟩ ⟨[], [], 1, 0, []⟩).2.calls.count
      (Event.basil_dealloc "R1") = 0 := by
  decide

/-- C2 (the code departs from the claim): with job 1 holding reservation "R1"
and "R1" in the BASIL reply, the pass issues a `basil_dealloc` call for "R1",
where the claim asks for no release of a claimed reservation. -/
theorem C2_claimed_reservation_is_released :
    (HAVE_BASIL.basil_query false ⟨[], ["R1"]⟩ ⟨[], [⟨1, "R1"⟩], 1, 0, []⟩).2.calls
      = [Event.basil_dealloc "R1"] := by
  decide

/-- C3 (the code departs from the claim): a node table with the single record
"n1" in base state 2 (not DOWN) and `basil_node_id = NO_VAL`, and an empty BASIL
reply: the pass returns success, the node is still not DOWN, still has the
sentinel id, and `set_node_down` was not called. -/
theorem C3_identity_sweep_leaves_node_up :
    (HAVE_BASIL.basil_query false ⟨[], []⟩
        ⟨[⟨"n1", none, 16, 65536, 2, NO_VAL, ⟨16, 65536⟩⟩], [], 1, 0, []⟩).1 = SLURM_SUCCESS ∧
    (HAVE_BASIL.basil_query false ⟨[], []⟩
        ⟨[⟨"n1", none, 16, 65536, 2, NO_VAL, ⟨16, 65536⟩⟩], [], 1, 0, []⟩).2.node_record_table_ptr.map
      (fun n => (decide (n.state &&& NODE_STATE_BASE = NODE_STATE_DOWN), n.basil_node_id))
      = [(false, NO_VAL)] ∧
    (HAVE_BASIL.basil_query false ⟨[], []⟩
        ⟨[⟨"n1", none, 16, 65536, 2, NO_VAL, ⟨16, 65536⟩⟩], [], 1, 0, []⟩).2.calls = [] := by
  decide

end Slurm
/-! ## Decimal numbers: `%d` and `atoi` -/

namespace Slurm

theorem to_int_of_range (x : Int) (h1 : INT_MIN ≤ x) (h2 : x ≤ INT_MAX) : to_int x = x := by
  unfold to_int
  unfold INT_MIN at h1
  unfold INT_MAX at h2
  rw [Int.emod_eq_of_lt (by omega) (by omega)]
  omega

theorem to_int_range (x : Int) : INT_MIN ≤ to_int x ∧ to_int x ≤ INT_MAX := by
  unfold to_int INT_MIN INT_MAX
  have h1 := Int.emod_nonneg (x + 2147483648) (show (4294967296 : Int) ≠ 0 by decide)
  have h2 := Int.emod_lt_of_pos (x + 2147483648) (show (0 : Int) < 4294967296 by decide)
  omega

theorem digitChar_spec (d : Nat) (h : d < 10) :
    isdigit (Nat.digitChar d) = true ∧ ((Nat.digitChar d).toNat : Int) - 48 = d := by
  interval_cases d <;> decide

theorem toDigitsCore_eq (n : Nat) : ∀ (fuel : Nat) (ds : List Char), n < fuel →
    Nat.toDigitsCore 10 fuel n ds = Nat.toDigits 10 n ++ ds := by
  induction n using Nat.strong_induction_on with
  | _ n ih =>
    intro fuel ds hf
    obtain ⟨f, rfl⟩ : ∃ f, fuel = f + 1 := ⟨fuel - 1, by omega⟩
    unfold Nat.toDigits
    rw [Nat.toDigitsCore, Nat.toDigitsCore]
    by_cases h0 : n / 10 = 0
    · simp [h0]
    · have hlt : n / 10 < n := Nat.div_lt_self (by omega) (by decide)
      simp only [h0, if_false]
      rw [ih (n / 10) hlt f _ (by omega), ih (n / 10) hlt n _ hlt]
      simp

theorem toDigits_rec (n : Nat) : Nat.toDigits 10 n =
    if n / 10 = 0 then [Nat.digitChar (n % 10)]
    else Nat.toDigits 10 (n / 10) ++ [Nat.digitChar (n % 10)] := by
  conv => lhs; unfold Nat.toDigits
  rw [Nat.toDigitsCore]
  by_cases h0 : n / 10 = 0
  · simp [h0]
  · simp only [h0, if_false]
    exact toDigitsCore_eq _ _ _ (Nat.div_lt_self (by omega) (by decide))

theorem toDigits_isdigit (n : Nat) : ∀ c ∈ Nat.toDigits 10 n, isdigit c = true := by
  induction n using Nat.strong_induction_on with
  | _ n ih =>
    intro c hc
    rw [toDigits_rec] at hc
    have hd := (digitChar_spec (n % 10) (Nat.mod_lt _ (by decide))).1
    by_cases h0 : n / 10 = 0
    · simp only [h0, if_true, List.mem_singleton] at hc
      rw [hc]; exact hd
    · simp only [h0, if_false, List.mem_append, List.mem_singleton] at hc
      rcases hc with hc | hc
      · exact ih (n / 10) (Nat.div_lt_self (by omega) (by decide)) c hc
      · rw [hc]; exact hd

theorem atoi_digits_append (xs ys : List Char) (acc : Int) (h : ∀ c ∈ xs, isdigit c = true) :
    atoi_digits (xs ++ ys) acc = atoi_digits ys (atoi_digits xs acc) := by
  induction xs generalizing acc with
  | nil => simp [atoi_digits]
  | cons x xs ih =>
    have hx := h x (List.mem_cons_self _ _)
    simp only [List.cons_append, atoi_digits, hx, if_true]
    exact ih _ (fun c hc => h c (List.mem_cons_of_mem _ hc))

theorem atoi_digits_toDigits (n : Nat) : atoi_digits (Nat.toDigits 10 n) 0 = n := by
  induction n using Nat.strong_induction_on with
  | _ n ih =>
    rw [toDigits_rec]
    have hd := digitChar_spec (n % 10) (Nat.mod_lt _ (by decide))
    by_cases h0 : n / 10 = 0
    · simp only [h0, if_true, atoi_digits, hd.1]
      rw [hd.2]
      have : n % 10 = n := Nat.mod_eq_of_lt (by omega)
      rw [this]; simp
    · simp only [h0, if_false]
      rw [atoi_digits_append _ _ _ (toDigits_isdigit _), ih (n / 10) (Nat.div_lt_self (by omega) (by decide))]
      simp only [atoi_digits, hd.1, if_true]
      rw [hd.2]
      have := Nat.div_add_mod n 10
      push_cast
      omega

end Slurm

namespace Slurm

theorem isdigit_not_space (c : Char) (h : isdigit c = true) :
    isspace c = false ∧ c ≠ '-' ∧ c ≠ '+' := by
  simp only [isdigit, Bool.and_eq_true, decide_eq_true_eq] at h
  refine ⟨?_, ?_, ?_⟩
  · simp only [isspace, Bool.or_eq_false_iff, decide_eq_false_iff_not]
    refine ⟨⟨⟨⟨⟨?_, ?_⟩, ?_⟩, ?_⟩, ?_⟩, ?_⟩ <;> (rintro rfl; revert h; decide)
  · rintro rfl; revert h; decide
  · rintro rfl; revert h; decide

theorem toDigits_head (n : Nat) : ∃ c cs, Nat.toDigits 10 n = c :: cs ∧ isdigit c = true := by
  have hne : Nat.toDigits 10 n ≠ [] := by
    rw [toDigits_rec]; split <;> simp
  match h : Nat.toDigits 10 n with
  | [] => exact absurd h hne
  | c :: cs => exact ⟨c, cs, rfl, toDigits_isdigit n c (by rw [h]; exact List.mem_cons_self _ _)⟩

theorem atoi_of_digit_head (c : Char) (cs : List Char) (h : isdigit c = true) :
    atoi (c :: cs) = to_int (atoi_digits (c :: cs) 0) := by
  obtain ⟨h1, h2, h3⟩ := isdigit_not_space c h
  unfold atoi
  rw [List.dropWhile_cons_of_neg (by simp [h1])]
  split
  · rename_i heq; simp only [List.cons.injEq] at heq; exact absurd heq.1 h2
  · rename_i heq; simp only [List.cons.injEq] at heq; exact absurd heq.1 h3
  · rfl

theorem atoi_toDigits (n : Nat) : atoi (Nat.toDigits 10 n) = to_int n := by
  obtain ⟨c, cs, heq, hc⟩ := toDigits_head n
  rw [heq, atoi_of_digit_head c cs hc, ← heq, atoi_digits_toDigits]

theorem fmt_d_toList (i : Int) : (fmt_d i).toList =
    match i with
    | Int.ofNat m => Nat.toDigits 10 m
    | Int.negSucc m => '-' :: Nat.toDigits 10 (m + 1) := by
  cases i <;> rfl

theorem atoi_fmt_d (i : Int) (h1 : INT_MIN ≤ i) (h2 : i ≤ INT_MAX) :
    atoi (fmt_d i).toList = i := by
  rw [fmt_d_toList]
  cases i with
  | ofNat m =>
    simp only
    rw [atoi_toDigits]
    exact to_int_of_range _ h1 h2
  | negSucc m =>
    simp only
    unfold atoi
    rw [List.dropWhile_cons_of_neg (by decide)]
    simp only
    rw [atoi_digits_toDigits]
    have : -((m + 1 : Nat) : Int) = Int.negSucc m := by
      rw [Int.negSucc_eq]; rfl
    rw [this]
    exact to_int_of_range _ h1 h2

theorem strchr_RES (s : String) :
    strchr ("RES_" ++ s).toList '_' = some ('_' :: s.toList) := by
  have : ("RES_" ++ s).toList = 'R' :: 'E' :: 'S' :: '_' :: s.toList := by
    simp [String.toList]
  rw [this]
  simp [strchr]

end Slurm

/-! ## The fallback reservation counter (build without HAVE_BASIL) -/

namespace Slurm

namespace NO_BASIL

theorem RES_fmt_d_inj (a b : Int) (ha1 : INT_MIN ≤ a) (ha2 : a ≤ INT_MAX)
    (hb1 : INT_MIN ≤ b) (hb2 : b ≤ INT_MAX)
    (h : "RES_" ++ fmt_d a = "RES_" ++ fmt_d b) : a = b := by
  have h' : (fmt_d a).toList = (fmt_d b).toList := by
    have := congrArg String.toList h
    simpa [String.toList] using this
  rw [← atoi_fmt_d a ha1 ha2, ← atoi_fmt_d b hb1 hb2, h']

theorem job_res_id_RES (j : job_record) (k : Int) (h1 : INT_MIN ≤ k) (h2 : k ≤ INT_MAX)
    (h : j.select_jobinfo = "RES_" ++ fmt_d k) : job_res_id j = some k := by
  unfold job_res_id
  simp only [h, strchr_RES, List.drop_succ_cons, List.drop_zero]
  rw [atoi_fmt_d k h1 h2]

/-- `basil_reserve` entered with its local `reservation_id` NULL. -/
theorem basil_reserve_null (st : slurmctld) (job_ptr : job_record) :
    basil_reserve st job_ptr stack_value.null =
      some (SLURM_SUCCESS, { st with last_res_id := to_int (st.last_res_id + 1) },
        "RES_" ++ fmt_d (to_int (st.last_res_id + 1))) := by
  simp [basil_reserve, xstrfmtcat_RES, _xstrcat, makespace]

/-- `basil_reserve` entered with its local `reservation_id` pointing to a
string of `xmalloc`: the text is appended to that string. -/
theorem basil_reserve_string (st : slurmctld) (job_ptr : job_record) (s : xstr) :
    basil_reserve st job_ptr (stack_value.string s) =
      some (SLURM_SUCCESS, { st with last_res_id := to_int (st.last_res_id + 1) },
        s.str ++ ("RES_" ++ fmt_d (to_int (st.last_res_id + 1)))) := by
  simp [basil_reserve, xstrfmtcat_RES, _xstrcat, makespace]

/-- Whenever `basil_reserve` returns, it returns success with the counter
incremented, and the string it built ends with "RES_" and the counter. -/
theorem basil_reserve_some (st : slurmctld) (job_ptr : job_record) (p : stack_value)
    (r : Int × slurmctld × String) (h : basil_reserve st job_ptr p = some r) :
    r.1 = SLURM_SUCCESS ∧
    r.2.1 = { st with last_res_id := to_int (st.last_res_id + 1) } ∧
    ∃ pre : String, r.2.2 = pre ++ ("RES_" ++ fmt_d (to_int (st.last_res_id + 1))) := by
  cases p with
  | wild => simp [basil_reserve] at h
  | null =>
    rw [basil_reserve_null] at h
    cases h
    exact ⟨rfl, rfl, "", by simp⟩
  | string s =>
    rw [basil_reserve_string] at h
    cases h
    exact ⟨rfl, rfl, s.str, rfl⟩

/-- Two lists that agree, cut at a character that occurs in neither front
part, have the same front part. -/
theorem split_unique (c : Char) (a b p q : List Char) (ha : c ∉ a) (hb : c ∉ b)
    (h : a ++ c :: p = b ++ c :: q) : a = b := by
  induction a generalizing b with
  | nil =>
    cases b with
    | nil => rfl
    | cons y ys =>
      simp only [List.nil_append, List.cons_append, List.cons.injEq] at h
      simp only [List.mem_cons, not_or] at hb
      exact absurd h.1 hb.1
  | cons x xs ih =>
    cases b with
    | nil =>
      simp only [List.nil_append, List.cons_append, List.cons.injEq] at h
      simp only [List.mem_cons, not_or] at ha
      exact absurd h.1.symm ha.1
    | cons y ys =>
      simp only [List.cons_append, List.cons.injEq] at h
      simp only [List.mem_cons, not_or] at ha hb
      rw [h.1, ih ys ha.2 hb.2 h.2]

theorem fmt_d_no_underscore (i : Int) : '_' ∉ (fmt_d i).toList := by
  have hdig : ∀ n, '_' ∉ Nat.toDigits 10 n := by
    intro n hmem
    have := toDigits_isdigit n '_' hmem
    revert this
    decide
  rw [fmt_d_toList]
  cases i with
  | ofNat m => exact hdig m
  | negSucc m =>
    simp only [List.mem_cons, not_or]
    exact ⟨by decide, hdig (m + 1)⟩

/-- The number at the end of a generated string determines it: two strings
that end with "RES_" and a counter value are different when the counter
values are. -/
theorem RES_suffix_inj (pre1 pre2 : String) (a b : Int) (ha1 : INT_MIN ≤ a) (ha2 : a ≤ INT_MAX)
    (hb1 : INT_MIN ≤ b) (hb2 : b ≤ INT_MAX)
    (h : pre1 ++ ("RES_" ++ fmt_d a) = pre2 ++ ("RES_" ++ fmt_d b)) : a = b := by
  have h1 : (pre1.toList ++ ['R', 'E', 'S']) ++ '_' :: (fmt_d a).toList
      = (pre2.toList ++ ['R', 'E', 'S']) ++ '_' :: (fmt_d b).toList := by
    have := congrArg String.toList h
    simpa [String.toList] using this
  have h2 := congrArg List.reverse h1
  simp only [List.reverse_append, List.reverse_cons, List.append_assoc, List.singleton_append]
    at h2
  have h3 := split_unique '_' (fmt_d a).toList.reverse (fmt_d b).toList.reverse _ _
    (by rw [List.mem_reverse]; exact fmt_d_no_underscore a)
    (by rw [List.mem_reverse]; exact fmt_d_no_underscore b) h2
  have h4 : (fmt_d a).toList = (fmt_d b).toList := List.reverse_injective h3
  rw [← atoi_fmt_d a ha1 ha2, ← atoi_fmt_d b hb1 hb2, h4]

/-- The job loop of `basil_query` never lowers the counter. -/
theorem query_loop_ge (jobs : List job_record) (c : Int) :
    c ≤ jobs.foldl basil_query_job c := by
  induction jobs generalizing c with
  | nil => simp
  | cons j rest ih =>
    rw [List.foldl_cons]
    refine le_trans ?_ (ih _)
    unfold basil_query_job
    split
    · exact le_refl _
    · exact le_max_left _ _

/-- After the job loop of `basil_query` the counter is at least the number of
every reservation id held by a job. -/
theorem query_loop_ge_held (jobs : List job_record) (c : Int) :
    ∀ j ∈ jobs, ∀ n, job_res_id j = some n → n ≤ jobs.foldl basil_query_job c := by
  induction jobs generalizing c with
  | nil => simp
  | cons j0 rest ih =>
    intro j hj n hn
    rw [List.foldl_cons]
    rcases List.mem_cons.mp hj with rfl | hj
    · refine le_trans ?_ (query_loop_ge rest _)
      unfold basil_query_job
      rw [hn]
      exact le_max_right _ _
    · exact ih _ j hj n hn

/-- The counter after the job loop of `basil_query` is the old counter or the
number of a reservation id held by a job. -/
theorem query_loop_attained (jobs : List job_record) (c : Int) :
    jobs.foldl basil_query_job c = c ∨
      ∃ j ∈ jobs, job_res_id j = some (jobs.foldl basil_query_job c) := by
  induction jobs generalizing c with
  | nil => simp
  | cons j0 rest ih =>
    rw [List.foldl_cons]
    rcases ih (basil_query_job c j0) with h | ⟨j, hj, h⟩
    · rw [h]
      unfold basil_query_job
      cases hn : job_res_id j0 with
      | none => left; rfl
      | some n =>
        simp only
        rcases le_total c n with hcn | hcn
        · right; exact ⟨j0, List.mem_cons_self _ _, by rw [max_eq_right hcn]; exact hn⟩
        · left; exact max_eq_left hcn
    · right; exact ⟨j, List.mem_cons_of_mem _ hj, h⟩

end NO_BASIL

end Slurm

namespace Slurm

/-- What the code does when the local `reservation_id` of `basil_reserve`
happens to hold NULL: starting from counter 0, with every job holding an id
"RES_k" and the maximum `M` of the `k` below `INT_MAX`, `basil_query` followed
by `basil_reserve` generates "RES_" followed by the decimal of `M + 1`. -/
theorem NO_BASIL.bootstrap_then_reserve_null (st : slurmctld) (job_ptr : job_record)
    (num : job_record → Nat) (M : Nat)
    (h0 : st.last_res_id = 0)
    (hform : ∀ j ∈ st.job_list, j.select_jobinfo = "RES_" ++ toString (num j))
    (hle : ∀ j ∈ st.job_list, num j ≤ M)
    (hmax : ∃ j ∈ st.job_list, num j = M)
    (hM : (M : Int) < INT_MAX) :
    NO_BASIL.basil_reserve (NO_BASIL.basil_query st).2 job_ptr NO_BASIL.stack_value.null
      = some (SLURM_SUCCESS, { st with last_res_id := ((M + 1 : Nat) : Int) },
          "RES_" ++ toString (M + 1)) := by
  have hnum : ∀ j ∈ st.job_list, NO_BASIL.job_res_id j = some (num j : Int) := by
    intro j hj
    have hjM := hle j hj
    exact NO_BASIL.job_res_id_RES j _ (by unfold INT_MIN; omega)
      (by unfold INT_MAX at *; omega) (hform j hj)
  have hval : st.job_list.foldl NO_BASIL.basil_query_job 0 = (M : Int) := by
    apply le_antisymm
    · rcases NO_BASIL.query_loop_attained st.job_list 0 with h | ⟨j, hj, h⟩
      · rw [h]; omega
      · rw [hnum j hj] at h
        have := hle j hj
        rw [← Option.some.inj h]
        exact_mod_cast this
    · obtain ⟨j, hj, hjM⟩ := hmax
      have := NO_BASIL.query_loop_ge_held st.job_list 0 j hj _ (hnum j hj)
      rw [hjM] at this
      exact this
  have hw : to_int ((M : Int) + 1) = ((M + 1 : Nat) : Int) := by
    rw [to_int_of_range _ (by unfold INT_MIN; omega) (by unfold INT_MAX at *; omega)]
    push_cast
    rfl
  rw [NO_BASIL.basil_reserve_null]
  show some (SLURM_SUCCESS,
      ({ st with last_res_id := to_int (st.job_list.foldl NO_BASIL.basil_query_job
        st.last_res_id + 1) } : slurmctld),
      "RES_" ++ fmt_d (to_int (st.job_list.foldl NO_BASIL.basil_query_job st.last_res_id + 1)))
    = _
  rw [h0, hval, hw]
  rfl

/-- C5 (the code departs from the claim): jobs holding "RES_3", "RES_7" and
"RES_2" and counter 0. `basil_query` sets the counter to 7. The `basil_reserve`
that follows appends to whatever its uninitialised local `reservation_id`
holds: when that is the string "RES_7" of an earlier call it generates
"RES_7RES_8", when it is a wild pointer the call does not return; it generates
"RES_8", as the claim says, only when the local happens to hold NULL. -/
theorem C5_bootstrap_then_reserve_uninitialised :
    (NO_BASIL.basil_query ⟨[], [⟨1, "RES_3"⟩, ⟨2, "RES_7"⟩, ⟨3, "RES_2"⟩], 1, 0, []⟩).2.last_res_id
      = 7 ∧
    NO_BASIL.basil_reserve
        (NO_BASIL.basil_query ⟨[], [⟨1, "RES_3"⟩, ⟨2, "RES_7"⟩, ⟨3, "RES_2"⟩], 1, 0, []⟩).2 ⟨4, ""⟩
        (NO_BASIL.stack_value.string ⟨64, "RES_7"⟩)
      = some (SLURM_SUCCESS, ⟨[], [⟨1, "RES_3"⟩, ⟨2, "RES_7"⟩, ⟨3, "RES_2"⟩], 1, 8, []⟩,
          "RES_7RES_8") ∧
    NO_BASIL.basil_reserve
        (NO_BASIL.basil_query ⟨[], [⟨1, "RES_3"⟩, ⟨2, "RES_7"⟩, ⟨3, "RES_2"⟩], 1, 0, []⟩).2 ⟨4, ""⟩
        NO_BASIL.stack_value.wild = none ∧
    NO_BASIL.basil_reserve
        (NO_BASIL.basil_query ⟨[], [⟨1, "RES_3"⟩, ⟨2, "RES_7"⟩, ⟨3, "RES_2"⟩], 1, 0, []⟩).2 ⟨4, ""⟩
        NO_BASIL.stack_value.null
      = some (SLURM_SUCCESS, ⟨[], [⟨1, "RES_3"⟩, ⟨2, "RES_7"⟩, ⟨3, "RES_2"⟩], 1, 8, []⟩,
          "RES_8") := by
  decide

end Slurm

namespace Slurm

namespace NO_BASIL

/-- Along a run without overflow the counter does not decrease, and the ids
generated are pairwise different, each ending with "RES_n" for an `n` above the
counter at the start of the run. -/
theorem run_calls_ids (calls : List Call) : ∀ (st : slurmctld),
    INT_MIN ≤ st.last_res_id → no_overflow st calls →
    st.last_res_id ≤ (run_calls st calls).1.last_res_id ∧
    (∀ id ∈ (run_calls st calls).2, ∃ (pre : String) (n : Int),
        id = pre ++ ("RES_" ++ fmt_d n) ∧ st.last_res_id < n ∧ n ≤ INT_MAX) ∧
    (run_calls st calls).2.Nodup := by
  induction calls with
  | nil => intro st _ _; simp [run_calls]
  | cons c cs ih =>
    intro st hlo hsafe
    obtain ⟨hc, hrest⟩ := hsafe
    cases c with
    | basil_query job_list =>
      have hge : st.last_res_id ≤ (basil_query { st with job_list := job_list }).2.last_res_id :=
        query_loop_ge job_list st.last_res_id
      obtain ⟨h1, h2, h3⟩ := ih (basil_query { st with job_list := job_list }).2
        (le_trans hlo hge) hrest
      have hrun : run_calls st (Call.basil_query job_list :: cs)
          = run_calls (basil_query { st with job_list := job_list }).2 cs := by
        simp [run_calls, run_call]
      rw [hrun]
      refine ⟨le_trans hge h1, ?_, h3⟩
      intro id hid
      obtain ⟨pre, n, hn1, hn2, hn3⟩ := h2 id hid
      exact ⟨pre, n, hn1, lt_of_le_of_lt hge hn2, hn3⟩
    | basil_release job_list reservation_id =>
      obtain ⟨h1, h2, h3⟩ :=
        ih (basil_release { st with job_list := job_list } reservation_id).2 hlo hrest
      have hrun : run_calls st (Call.basil_release job_list reservation_id :: cs)
          = run_calls (basil_release { st with job_list := job_list } reservation_id).2 cs := by
        simp [run_calls, run_call]
      rw [hrun]
      exact ⟨h1, h2, h3⟩
    | basil_reserve job_list job_ptr p =>
      have hhi : st.last_res_id < INT_MAX := hc
      have hw : to_int (st.last_res_id + 1) = st.last_res_id + 1 :=
        to_int_of_range _ (by unfold INT_MIN at *; omega) (by unfold INT_MAX at *; omega)
      cases hr : basil_reserve { st with job_list := job_list } job_ptr p with
      | none =>
        have hrun : run_calls st (Call.basil_reserve job_list job_ptr p :: cs) = (st, []) := by
          simp [run_calls, run_call, hr]
        rw [hrun]
        simp
      | some r =>
        obtain ⟨_, hst, pre, hid0⟩ := basil_reserve_some _ job_ptr p r hr
        simp only [hw] at hst hid0
        have hcall : run_call st (Call.basil_reserve job_list job_ptr p)
            = some (r.2.1, some r.2.2) := by
          simp [run_call, hr]
        rw [hcall] at hrest
        have hlast : r.2.1.last_res_id = st.last_res_id + 1 := by rw [hst]
        obtain ⟨h1, h2, h3⟩ := ih r.2.1 (by rw [hlast]; omega) hrest
        have hrun : run_calls st (Call.basil_reserve job_list job_ptr p :: cs)
            = ((run_calls r.2.1 cs).1, r.2.2 :: (run_calls r.2.1 cs).2) := by
          simp [run_calls, hcall]
        rw [hrun]
        rw [hlast] at h1 h2
        refine ⟨by simp only; omega, ?_, ?_⟩
        · intro id hid
          rcases List.mem_cons.mp hid with rfl | hid
          · exact ⟨pre, st.last_res_id + 1, hid0, by omega, by unfold INT_MAX at *; omega⟩
          · obtain ⟨pre', n, hn1, hn2, hn3⟩ := h2 id hid
            exact ⟨pre', n, hn1, by omega, hn3⟩
        · refine List.nodup_cons.mpr ⟨?_, h3⟩
          intro hmem
          obtain ⟨pre', n, hn1, hn2, hn3⟩ := h2 _ hmem
          rw [hid0] at hn1
          have := RES_suffix_inj _ _ _ _ (by omega) (by unfold INT_MAX at *; omega)
            (by omega) hn3 hn1
          omega

end NO_BASIL

/-- C6 (the claim as stated fails): with `last_res_id = INT_MAX`, a C int,
`basil_reserve` (entered with its local `reservation_id` NULL) sets the counter
to `INT_MIN`, a smaller value. -/
theorem C6_reserve_wraps_at_int_max :
    NO_BASIL.basil_reserve ⟨[], [], 1, INT_MAX, []⟩ ⟨1, ""⟩ NO_BASIL.stack_value.null
      = some (SLURM_SUCCESS, ⟨[], [], 1, INT_MIN, []⟩, "RES_-2147483648") ∧
    INT_MIN < INT_MAX := by
  decide

/-- C6 (amended): in the build without HAVE_BASIL, for every state, every job
table, whatever the uninitialised local of each `basil_reserve` holds, and
every sequence of calls in which no `basil_reserve` starts from
`last_res_id = INT_MAX`: no call of `basil_query`, `basil_reserve` or
`basil_release` that returns decreases `last_res_id`; each `basil_reserve` that
returns strictly increases it; every call returns except a `basil_reserve`
whose local holds a wild pointer, where the process ends; the counter at the
end of the run is not below the one at the start; and the ids generated by
the `basil_reserve` calls of the run are pairwise different. -/
theorem C6_counter_monotone (st : slurmctld) (calls : List NO_BASIL.Call)
    (hlo : INT_MIN ≤ st.last_res_id) (hsafe : NO_BASIL.no_overflow st calls) :
    (∀ c r, NO_BASIL.no_overflow st [c] → NO_BASIL.run_call st c = some r →
      st.last_res_id ≤ r.1.last_res_id) ∧
    (∀ job_list job_ptr p r, st.last_res_id < INT_MAX →
      NO_BASIL.run_call st (NO_BASIL.Call.basil_reserve job_list job_ptr p) = some r →
      st.last_res_id < r.1.last_res_id) ∧
    (∀ c, (∀ job_list job_ptr,
        c ≠ NO_BASIL.Call.basil_reserve job_list job_ptr NO_BASIL.stack_value.wild) →
      (NO_BASIL.run_call st c).isSome = true) ∧
    st.last_res_id ≤ (NO_BASIL.run_calls st calls).1.last_res_id ∧
    (NO_BASIL.run_calls st calls).2.Nodup := by
  obtain ⟨h1, _, h3⟩ := NO_BASIL.run_calls_ids calls st hlo hsafe
  have hstrict : ∀ job_list job_ptr p r, st.last_res_id < INT_MAX →
      NO_BASIL.run_call st (NO_BASIL.Call.basil_reserve job_list job_ptr p) = some r →
      st.last_res_id < r.1.last_res_id := by
    intro job_list job_ptr p r hhi hr
    have hw : to_int (st.last_res_id + 1) = st.last_res_id + 1 :=
      to_int_of_range _ (by unfold INT_MIN at *; omega) (by unfold INT_MAX at *; omega)
    cases hb : NO_BASIL.basil_reserve { st with job_list := job_list } job_ptr p with
    | none => simp [NO_BASIL.run_call, hb] at hr
    | some x =>
      obtain ⟨_, hst, _⟩ := NO_BASIL.basil_reserve_some _ job_ptr p x hb
      simp only [NO_BASIL.run_call, hb, Option.some.injEq] at hr
      rw [← hr]
      simp only [hst, hw]
      omega
  refine ⟨?_, hstrict, ?_, h1, h3⟩
  · intro c r hc hr
    cases c with
    | basil_query job_list =>
      simp only [NO_BASIL.run_call, Option.some.injEq] at hr
      rw [← hr]
      exact NO_BASIL.query_loop_ge job_list st.last_res_id
    | basil_release job_list reservation_id =>
      simp only [NO_BASIL.run_call, Option.some.injEq] at hr
      rw [← hr]
      exact le_refl _
    | basil_reserve job_list job_ptr p =>
      exact le_of_lt (hstrict job_list job_ptr p r hc.1 hr)
  · intro c hc
    cases c with
    | basil_query job_list => rfl
    | basil_release job_list reservation_id => rfl
    | basil_reserve job_list job_ptr p =>
      cases p with
      | wild => exact absurd rfl (hc job_list job_ptr)
      | null => simp [NO_BASIL.run_call, NO_BASIL.basil_reserve_null]
      | string s => simp [NO_BASIL.run_call, NO_BASIL.basil_reserve_string]

/-- Witness of C6 (amended): from counter 0, a reserve whose local holds NULL, a
query over a job holding "RES_5", a release, and a reserve whose local holds
the string "RES_1" of the first one. -/
theorem C6_counter_monotone_witness :
    (NO_BASIL.run_calls ⟨[], [], 1, 0, []⟩
      [NO_BASIL.Call.basil_reserve [] ⟨1, ""⟩ NO_BASIL.stack_value.null,
        NO_BASIL.Call.basil_query [⟨1, "RES_5"⟩],
        NO_BASIL.Call.basil_release [] "RES_5",
        NO_BASIL.Call.basil_reserve [] ⟨2, ""⟩
          (NO_BASIL.stack_value.string ⟨64, "RES_1"⟩)]).2.Nodup :=
  (C6_counter_monotone ⟨[], [], 1, 0, []⟩
    [NO_BASIL.Call.basil_reserve [] ⟨1, ""⟩ NO_BASIL.stack_value.null,
      NO_BASIL.Call.basil_query [⟨1, "RES_5"⟩],
      NO_BASIL.Call.basil_release [] "RES_5",
      NO_BASIL.Call.basil_reserve [] ⟨2, ""⟩ (NO_BASIL.stack_value.string ⟨64, "RES_1"⟩)]
    (by decide) ⟨by decide, trivial, trivial, by decide, trivial⟩).2.2.2.2

end Slurm

/-! ## The node loop of `basil_query` -/

namespace Slurm

theorem node_state_down_base (s : Nat) :
    node_state_down s &&& NODE_STATE_BASE = NODE_STATE_DOWN := by
  unfold node_state_down NODE_STATE_BASE NODE_STATE_DOWN NODE_STATE_FLAGS
  rw [Nat.and_distrib_right, Nat.and_assoc, show (65280 &&& 255 : Nat) = 0 by decide,
    show (1 &&& 255 : Nat) = 1 by decide, Nat.and_zero, Nat.or_zero]

theorem node_state_down_idem (s : Nat) :
    node_state_down (node_state_down s) = node_state_down s := by
  unfold node_state_down NODE_STATE_DOWN NODE_STATE_FLAGS
  rw [Nat.and_distrib_right, Nat.and_assoc, show (65280 &&& 65280 : Nat) = 65280 by decide,
    show (1 &&& 65280 : Nat) = 0 by decide, Nat.zero_or]

theorem find_node_record_some (table : List node_record) (name : String) (i : Nat)
    (h : find_node_record table name = some i) :
    ∃ n, table[i]? = some n ∧ n.name = name := by
  induction table generalizing i with
  | nil => simp [find_node_record] at h
  | cons n rest ih =>
    unfold find_node_record at h
    by_cases hn : n.name = name
    · simp only [hn, if_true, Option.some.injEq] at h
      subst h
      exact ⟨n, by simp, hn⟩
    · simp only [hn, if_false, Option.map_eq_some'] at h
      obtain ⟨j, hj, rfl⟩ := h
      obtain ⟨m, hm1, hm2⟩ := ih j hj
      exact ⟨m, by simpa using hm1, hm2⟩

theorem find_node_record_congr (table table' : List node_record) (name : String)
    (h : table.map (fun n => n.name) = table'.map (fun n => n.name)) :
    find_node_record table name = find_node_record table' name := by
  induction table generalizing table' with
  | nil =>
    cases table' with
    | nil => rfl
    | cons _ _ => simp at h
  | cons n rest ih =>
    cases table' with
    | nil => simp at h
    | cons n' rest' =>
      simp only [List.map_cons, List.cons.injEq] at h
      unfold find_node_record
      rw [h.1, ih rest' h.2]

theorem map_name_set (table : List node_record) (i : Nat) (n m : node_record)
    (h : table[i]? = some n) (hm : m.name = n.name) :
    (table.set i m).map (fun n => n.name) = table.map (fun n => n.name) := by
  induction table generalizing i with
  | nil => simp
  | cons x rest ih =>
    cases i with
    | zero =>
      simp only [List.getElem?_cons_zero, Option.some.injEq] at h
      simp [hm, h]
    | succ j =>
      simp only [List.getElem?_cons_succ] at h
      simp only [List.set_cons_succ, List.map_cons, List.cons.injEq, true_and]
      exact ih j h

namespace HAVE_BASIL

theorem basil_node_fields_eq (n : node_record) (b : basil_node) :
    basil_node_fields n b =
      { name := n.name
        arch := if n.arch = none then xstrdup b.basil_node_arch else n.arch
        cpus := b.basil_cpus
        real_memory := b.basil_memory
        state := n.state
        basil_node_id := b.basil_node_id
        config_ptr := n.config_ptr } := by
  unfold basil_node_fields
  by_cases h : n.arch = none <;> simp [h]

theorem basil_node_fields_name (n : node_record) (b : basil_node) :
    (basil_node_fields n b).name = n.name := by
  rw [basil_node_fields_eq]

theorem basil_node_fields_state (n : node_record) (b : basil_node) :
    (basil_node_fields n b).state = n.state := by
  rw [basil_node_fields_eq]

theorem basil_node_fields_config (n : node_record) (b : basil_node) :
    (basil_node_fields n b).config_ptr = n.config_ptr := by
  rw [basil_node_fields_eq]

theorem node_step_name (f : Nat) (n : node_record) (b : basil_node) :
    (node_step f n b).name = n.name := by
  unfold node_step; split <;> simp [basil_node_fields_name]

theorem node_step_config (f : Nat) (n : node_record) (b : basil_node) :
    (node_step f n b).config_ptr = n.config_ptr := by
  unfold node_step; split <;> simp [basil_node_fields_config]

/-- `set_node_down` called with the name of the record `node_ptr` points to
sets that record DOWN. -/
theorem set_node_down_set (table : List node_record) (i : Nat) (n m : node_record)
    (hfind : find_node_record table n.name = some i) (hget : table[i]? = some n)
    (hm : m.name = n.name) :
    set_node_down (table.set i m) n.name
      = table.set i { m with state := node_state_down m.state } := by
  have hlt : i < table.length := by
    rcases Nat.lt_or_ge i table.length with h | h
    · exact h
    · rw [List.getElem?_eq_none h] at hget; cases hget
  unfold set_node_down
  rw [find_node_record_congr _ table _ (map_name_set table i n m hget hm), hfind]
  simp only [List.getElem?_set_self hlt, List.set_set]

/-- One iteration of the node loop, as an update of the table and of the
record of calls. -/
theorem basil_query_node_eq (st : slurmctld) (b : basil_node) :
    basil_query_node st b =
      { st with
        node_record_table_ptr := node_pass st.fast_schedule st.node_record_table_ptr b
        calls := st.calls ++ pass_calls st.fast_schedule st.node_record_table_ptr b } := by
  unfold basil_query_node node_pass pass_calls
  cases hfind : find_node_record st.node_record_table_ptr b.basil_node_name with
  | none => simp
  | some i =>
    obtain ⟨n, hget, hname⟩ := find_node_record_some _ _ _ hfind
    simp only [hget]
    unfold node_step node_calls
    cases hr : basil_reason st.fast_schedule n b with
    | none => simp
    | some r =>
      simp only
      rw [set_node_down_set _ i n _ (by rw [hname]; exact hfind) hget
        (basil_node_fields_name n b), basil_node_fields_state]

end HAVE_BASIL

end Slurm

namespace Slurm

namespace HAVE_BASIL

/-- The node loop as an update of the table and of the record of calls. -/
theorem node_loop_eq (nodes : List basil_node) (st : slurmctld) :
    nodes.foldl basil_query_node st =
      { st with
        node_record_table_ptr := nodes.foldl (node_pass st.fast_schedule) st.node_record_table_ptr
        calls := st.calls ++ loop_calls st.fast_schedule st.node_record_table_ptr nodes } := by
  induction nodes generalizing st with
  | nil => simp [loop_calls]
  | cons b rest ih =>
    rw [List.foldl_cons, ih, basil_query_node_eq]
    simp [loop_calls, List.append_assoc]

/-- A successful pass: the node table is the result of the node loop; the
calls are those of the node loop followed by one `basil_dealloc` for each
BASIL reservation some job holds. -/
theorem basil_query_eq (reply : basil_reply) (st : slurmctld) :
    basil_query false reply st =
      (SLURM_SUCCESS,
        { st with
          node_record_table_ptr :=
            reply.nodes.foldl (node_pass st.fast_schedule) st.node_record_table_ptr
          calls := st.calls ++ loop_calls st.fast_schedule st.node_record_table_ptr reply.nodes
            ++ List.map Event.basil_dealloc
              (List.filter (fun r => st.job_list.any (fun j => decide (j.select_jobinfo = r)))
                reply.reservations) }) := by
  unfold basil_query
  simp only [Bool.false_eq_true, if_false, validate_basil_node_id_eq, reservation_loop_eq,
    node_loop_eq]

theorem node_pass_names (f : Nat) (table : List node_record) (b : basil_node) :
    (node_pass f table b).map (fun n => n.name) = table.map (fun n => n.name) := by
  unfold node_pass
  cases hfind : find_node_record table b.basil_node_name with
  | none => rfl
  | some i =>
    obtain ⟨n, hget, _⟩ := find_node_record_some _ _ _ hfind
    simp only [hget]
    exact map_name_set table i n _ hget (node_step_name f n b)

theorem node_pass_find (f : Nat) (table : List node_record) (b : basil_node) (name : String) :
    find_node_record (node_pass f table b) name = find_node_record table name :=
  find_node_record_congr _ _ _ (node_pass_names f table b)

theorem node_pass_get (f : Nat) (table : List node_record) (b : basil_node) (i : Nat)
    (n : node_record) (h : table[i]? = some n) :
    (node_pass f table b)[i]? =
      some (if find_node_record table b.basil_node_name = some i then node_step f n b else n) := by
  have hlt : i < table.length := by
    rcases Nat.lt_or_ge i table.length with h' | h'
    · exact h'
    · rw [List.getElem?_eq_none h'] at h; cases h
  unfold node_pass
  cases hfind : find_node_record table b.basil_node_name with
  | none => simpa using h
  | some j =>
    obtain ⟨m, hget, _⟩ := find_node_record_some _ _ _ hfind
    simp only [hget, Option.some.injEq]
    by_cases hij : j = i
    · subst hij
      rw [h] at hget
      cases hget
      simp [List.getElem?_set_self hlt]
    · rw [List.getElem?_set_ne hij, h]
      simp [hij]

theorem node_loop_find (f : Nat) (nodes : List basil_node) (table : List node_record)
    (name : String) :
    find_node_record (nodes.foldl (node_pass f) table) name = find_node_record table name := by
  induction nodes generalizing table with
  | nil => rfl
  | cons b rest ih => rw [List.foldl_cons, ih, node_pass_find]

/-- The record at index `i` after the node loop: the BASIL nodes of its name
applied in order when `find_node_record` returns `i` for that name, the
record unchanged otherwise. -/
theorem node_loop_get (f : Nat) (nodes : List basil_node) (table : List node_record) (i : Nat)
    (n : node_record) (h : table[i]? = some n) :
    (nodes.foldl (node_pass f) table)[i]? =
      some (if find_node_record table n.name = some i then node_fold f n nodes else n) := by
  induction nodes generalizing table n with
  | nil => simp [node_fold, h]
  | cons b rest ih =>
    rw [List.foldl_cons, ih _ _ (node_pass_get f table b i n h)]
    congr 1
    by_cases hfirst : find_node_record table n.name = some i
    · by_cases hb : b.basil_node_name = n.name
      · simp [hb, hfirst, node_step_name, node_pass_find, node_fold]
      · have hne : find_node_record table b.basil_node_name ≠ some i := by
          intro hc
          obtain ⟨m, hm1, hm2⟩ := find_node_record_some _ _ _ hc
          rw [h] at hm1
          cases hm1
          exact hb hm2.symm
        simp [hb, hne, hfirst, node_pass_find, node_fold]
    · have hne : find_node_record table b.basil_node_name ≠ some i := by
        intro hc
        obtain ⟨m, hm1, hm2⟩ := find_node_record_some _ _ _ hc
        rw [h] at hm1
        cases hm1
        rw [hm2] at hfirst
        exact hfirst hc
      simp [hne, hfirst, node_pass_find]

end HAVE_BASIL

end Slurm

namespace Slurm

namespace HAVE_BASIL

theorem node_fold_append (f : Nat) (n : node_record) (xs ys : List basil_node) :
    node_fold f n (xs ++ ys) = node_fold f (node_fold f n xs) ys := by
  simp [node_fold, List.foldl_append]

theorem node_fold_cons (f : Nat) (n : node_record) (b : basil_node) (rest : List basil_node) :
    node_fold f n (b :: rest) =
      node_fold f (if b.basil_node_name = n.name then node_step f n b else n) rest := by
  simp [node_fold]

theorem node_fold_name (f : Nat) (nodes : List basil_node) (n : node_record) :
    (node_fold f n nodes).name = n.name := by
  induction nodes generalizing n with
  | nil => rfl
  | cons b rest ih =>
    rw [node_fold_cons, ih]
    split
    · exact node_step_name f n b
    · rfl

theorem node_fold_other (f : Nat) (nodes : List basil_node) (n : node_record)
    (h : ∀ x ∈ nodes, x.basil_node_name ≠ n.name) : node_fold f n nodes = n := by
  induction nodes with
  | nil => rfl
  | cons b rest ih =>
    rw [node_fold_cons, if_neg (h b (List.mem_cons_self _ _))]
    exact ih (fun x hx => h x (List.mem_cons_of_mem _ hx))

theorem loop_calls_append (f : Nat) (xs ys : List basil_node) (table : List node_record) :
    loop_calls f table (xs ++ ys) =
      loop_calls f table xs ++ loop_calls f (xs.foldl (node_pass f) table) ys := by
  induction xs generalizing table with
  | nil => simp [loop_calls]
  | cons b rest ih => simp [loop_calls, ih, List.append_assoc]

/-- An iteration for a BASIL node of another name records no call for the
record that `find_node_record` returns for `name`. -/
theorem pass_calls_other (f : Nat) (table : List node_record) (x : basil_node) (name : String)
    (i : Nat) (hfind : find_node_record table name = some i) (hx : x.basil_node_name ≠ name) :
    Event._sync_bitmaps i ∉ pass_calls f table x ∧
      ∀ r, Event.set_node_down name r ∉ pass_calls f table x := by
  obtain ⟨n, hget, hname⟩ := find_node_record_some _ _ _ hfind
  unfold pass_calls
  cases hfx : find_node_record table x.basil_node_name with
  | none => simp
  | some j =>
    obtain ⟨m, hgetm, hnamem⟩ := find_node_record_some _ _ _ hfx
    simp only [hgetm]
    have hji : j ≠ i := by
      rintro rfl
      rw [hget] at hgetm
      cases hgetm
      exact hx (hnamem.symm.trans hname)
    have hmn : m.name ≠ name := by rw [hnamem]; exact hx
    unfold node_calls
    split
    · simp
    · simp only [List.mem_cons, Event._sync_bitmaps.injEq, Event.set_node_down.injEq,
        reduceCtorEq, List.mem_nil_iff, or_false, false_or, not_and]
      exact ⟨fun h => hji h.symm, fun r h => absurd h.symm hmn⟩

theorem loop_calls_other (f : Nat) (nodes : List basil_node) (table : List node_record)
    (name : String) (i : Nat) (hfind : find_node_record table name = some i)
    (h : ∀ x ∈ nodes, x.basil_node_name ≠ name) :
    Event._sync_bitmaps i ∉ loop_calls f table nodes ∧
      ∀ r, Event.set_node_down name r ∉ loop_calls f table nodes := by
  induction nodes generalizing table with
  | nil => simp [loop_calls]
  | cons b rest ih =>
    have h1 := pass_calls_other f table b name i hfind (h b (List.mem_cons_self _ _))
    have h2 := ih (node_pass f table b) (by rw [node_pass_find]; exact hfind)
      (fun x hx => h x (List.mem_cons_of_mem _ hx))
    simp only [loop_calls, List.mem_append, not_or]
    exact ⟨⟨h1.1, h2.1⟩, fun r => ⟨h1.2 r, h2.2 r⟩⟩

/-- The calls of the node loop, seen from a record for which BASIL reports
exactly one node `b`: those before `b`, those of the iteration for `b` on the
record as it was at the start, and those after `b`. -/
theorem loop_calls_single (f : Nat) (table : List node_record) (pre post : List basil_node)
    (b : basil_node) (i : Nat) (n : node_record)
    (hfind : find_node_record table b.basil_node_name = some i) (hget : table[i]? = some n)
    (hpre : ∀ x ∈ pre, x.basil_node_name ≠ b.basil_node_name) :
    loop_calls f table (pre ++ b :: post) =
      loop_calls f table pre ++ (node_calls f i n b ++
        loop_calls f (node_pass f (pre.foldl (node_pass f) table) b) post) := by
  obtain ⟨n', hget', hname⟩ := find_node_record_some _ _ _ hfind
  rw [hget] at hget'
  cases hget'
  rw [loop_calls_append, loop_calls]
  congr 2
  unfold pass_calls
  rw [node_loop_find, hfind]
  simp only
  rw [node_loop_get f pre table i n hget, if_pos (by rw [hname]; exact hfind),
    node_fold_other f pre n (by rw [hname]; exact hpre)]

/-- The record for which BASIL reports exactly one node `b`, after the loop. -/
theorem node_loop_single (f : Nat) (table : List node_record) (pre post : List basil_node)
    (b : basil_node) (i : Nat) (n : node_record)
    (hfind : find_node_record table b.basil_node_name = some i) (hget : table[i]? = some n)
    (hpre : ∀ x ∈ pre, x.basil_node_name ≠ b.basil_node_name)
    (hpost : ∀ x ∈ post, x.basil_node_name ≠ b.basil_node_name) :
    ((pre ++ b :: post).foldl (node_pass f) table)[i]? = some (node_step f n b) := by
  obtain ⟨n', hget', hname⟩ := find_node_record_some _ _ _ hfind
  rw [hget] at hget'
  cases hget'
  rw [node_loop_get f _ table i n hget, if_pos (by rw [hname]; exact hfind), node_fold_append,
    node_fold_other f pre n (by rw [hname]; exact hpre), node_fold_cons, if_pos hname.symm,
    node_fold_other f post _ (by rw [node_step_name, hname]; exact hpost)]

theorem basil_reason_healthy (f : Nat) (n : node_record) (b : basil_node)
    (hstate : b.basil_state = "UP") (hrole : b.basil_role = "BATCH")
    (hcpu : n.config_ptr.cpus ≤ b.basil_cpus)
    (hmem : n.config_ptr.real_memory ≤ b.basil_memory) : basil_reason f n b = none := by
  simp [basil_reason, hstate, hrole, Nat.not_lt.mpr hcpu, Nat.not_lt.mpr hmem]

theorem basil_reason_low_cpus (f : Nat) (n : node_record) (b : basil_node) (hf : f ≠ 2)
    (hcpu : b.basil_cpus < n.config_ptr.cpus)
    (hmem : n.config_ptr.real_memory ≤ b.basil_memory) :
    basil_reason f n b = some "Low CPUs" := by
  simp [basil_reason, hcpu, hf, Nat.not_lt.mpr hmem]

theorem basil_reason_not_up (f : Nat) (n : node_record) (b : basil_node)
    (hup : n.state &&& NODE_STATE_BASE ≠ NODE_STATE_DOWN) (hstate : b.basil_state ≠ "UP") :
    ∃ r, basil_reason f n b = some r ∧ r ≠ "" := by
  unfold basil_reason
  simp only [hup, hstate, ne_eq, not_false_eq_true, if_true]
  split
  · exact ⟨_, rfl, by decide⟩
  · split
    · exact ⟨_, rfl, by decide⟩
    · exact ⟨_, rfl, by decide⟩

end HAVE_BASIL

end Slurm

namespace Slurm

namespace HAVE_BASIL

/-- In the calls of a pass, the `_sync_bitmaps` calls for a record and the
`set_node_down` calls for its name are those of the iteration for the only
BASIL node of that name. -/
theorem pass_count_single (f : Nat) (table : List node_record) (pre post : List basil_node)
    (b : basil_node) (i : Nat) (n : node_record) (rs : List String) (e : Event)
    (hfind : find_node_record table b.basil_node_name = some i) (hget : table[i]? = some n)
    (hpre : ∀ x ∈ pre, x.basil_node_name ≠ b.basil_node_name)
    (hpost : ∀ x ∈ post, x.basil_node_name ≠ b.basil_node_name)
    (he : e = Event._sync_bitmaps i ∨ ∃ r, e = Event.set_node_down b.basil_node_name r) :
    (loop_calls f table (pre ++ b :: post) ++ List.map Event.basil_dealloc rs).count e
      = (node_calls f i n b).count e := by
  have h1 := loop_calls_other f pre table _ i hfind hpre
  have h2 := loop_calls_other f post (node_pass f (pre.foldl (node_pass f) table) b) _ i
    (by rw [node_pass_find, node_loop_find]; exact hfind) hpost
  have h3 : e ∉ List.map Event.basil_dealloc rs := by
    rcases he with rfl | ⟨r, rfl⟩ <;> simp
  have h4 : e ∉ loop_calls f table pre := by
    rcases he with rfl | ⟨r, rfl⟩
    · exact h1.1
    · exact h1.2 r
  have h5 : e ∉ loop_calls f (node_pass f (pre.foldl (node_pass f) table) b) post := by
    rcases he with rfl | ⟨r, rfl⟩
    · exact h2.1
    · exact h2.2 r
  rw [loop_calls_single f table pre post b i n hfind hget hpre]
  simp only [List.count_append, List.count_eq_zero_of_not_mem h3,
    List.count_eq_zero_of_not_mem h4, List.count_eq_zero_of_not_mem h5]
  omega

end HAVE_BASIL

/-- C7: healthy node stays up. For every state and BASIL reply in which a
locally known record (the one `find_node_record` returns, at index `i`) has
exactly one BASIL node `b`, with status "UP", role "BATCH", cpus and memory not
below the baseline of the record: if the record is not DOWN before the pass,
the pass succeeds, the record is not DOWN after it (its state word is
unchanged), its cpus and real_memory are the reported values, and the pass
records no `set_node_down` call for its name and no `_sync_bitmaps` call for
it. -/
theorem C7_healthy_node_stays_up (st : slurmctld) (reply : basil_reply)
    (pre post : List basil_node) (b : basil_node) (i : Nat) (n : node_record)
    (hnodes : reply.nodes = pre ++ b :: post)
    (hpre : ∀ x ∈ pre, x.basil_node_name ≠ b.basil_node_name)
    (hpost : ∀ x ∈ post, x.basil_node_name ≠ b.basil_node_name)
    (hfind : find_node_record st.node_record_table_ptr b.basil_node_name = some i)
    (hget : st.node_record_table_ptr[i]? = some n)
    (hstate : b.basil_state = "UP") (hrole : b.basil_role = "BATCH")
    (hcpu : n.config_ptr.cpus ≤ b.basil_cpus)
    (hmem : n.config_ptr.real_memory ≤ b.basil_memory)
    (hup : n.state &&& NODE_STATE_BASE ≠ NODE_STATE_DOWN) :
    (HAVE_BASIL.basil_query false reply st).1 = SLURM_SUCCESS ∧
    (∃ m, (HAVE_BASIL.basil_query false reply st).2.node_record_table_ptr[i]? = some m ∧
      m.state &&& NODE_STATE_BASE ≠ NODE_STATE_DOWN ∧ m.state = n.state ∧
      m.cpus = b.basil_cpus ∧ m.real_memory = b.basil_memory) ∧
    ∃ new, (HAVE_BASIL.basil_query false reply st).2.calls = st.calls ++ new ∧
      Event._sync_bitmaps i ∉ new ∧ ∀ r, Event.set_node_down b.basil_node_name r ∉ new := by
  have hreason := HAVE_BASIL.basil_reason_healthy st.fast_schedule n b hstate hrole hcpu hmem
  rw [HAVE_BASIL.basil_query_eq, hnodes]
  refine ⟨rfl, ⟨_, HAVE_BASIL.node_loop_single _ _ pre post b i n hfind hget hpre hpost, ?_⟩,
    ⟨_, List.append_assoc _ _ _, ?_⟩⟩
  · simpa [HAVE_BASIL.node_step, hreason, HAVE_BASIL.basil_node_fields_eq] using hup
  · have hcount := fun e he => HAVE_BASIL.pass_count_single st.fast_schedule
      st.node_record_table_ptr pre post b i n
      (List.filter (fun r => st.job_list.any (fun j => decide (j.select_jobinfo = r)))
        reply.reservations) e hfind hget hpre hpost he
    simp only [HAVE_BASIL.node_calls, hreason, List.count_nil] at hcount
    exact ⟨List.count_eq_zero.mp (hcount _ (Or.inl rfl)),
      fun r => List.count_eq_zero.mp (hcount _ (Or.inr ⟨r, rfl⟩))⟩

/-- Witness of C7: scenario A, "n1" reporting 16 cpus and 65536 MB against the
baseline 16 / 65536. -/
theorem C7_healthy_node_stays_up_witness :
    (HAVE_BASIL.basil_query false ⟨[scenario_A], []⟩ scenario_state).1 = SLURM_SUCCESS ∧
    (∃ m, (HAVE_BASIL.basil_query false ⟨[scenario_A], []⟩
        scenario_state).2.node_record_table_ptr[0]? = some m ∧
      m.state &&& NODE_STATE_BASE ≠ NODE_STATE_DOWN ∧ m.state = scenario_n1.state ∧
      m.cpus = 16 ∧ m.real_memory = 65536) ∧
    ∃ new, (HAVE_BASIL.basil_query false ⟨[scenario_A], []⟩ scenario_state).2.calls
        = scenario_state.calls ++ new ∧
      Event._sync_bitmaps 0 ∉ new ∧ ∀ r, Event.set_node_down "n1" r ∉ new :=
  C7_healthy_node_stays_up scenario_state ⟨[scenario_A], []⟩ [] [] scenario_A 0 scenario_n1
    rfl (by decide) (by decide) (by decide) (by decide) (by decide) (by decide) (by decide)
    (by decide) (by decide)

end Slurm

namespace Slurm

namespace HAVE_BASIL

theorem node_step_state (f : Nat) (n : node_record) (b : basil_node) :
    (node_step f n b).state =
      if (basil_reason f n b).isSome then node_state_down n.state else n.state := by
  unfold node_step
  cases basil_reason f n b <;> simp [basil_node_fields_state]

/-- An iteration of the node loop never takes a record out of DOWN. -/
theorem node_step_down_persists (f : Nat) (n : node_record) (b : basil_node)
    (h : n.state &&& NODE_STATE_BASE = NODE_STATE_DOWN) :
    (node_step f n b).state &&& NODE_STATE_BASE = NODE_STATE_DOWN := by
  rw [node_step_state]
  split
  · exact node_state_down_base _
  · exact h

theorem node_fold_down_persists (f : Nat) (nodes : List basil_node) (n : node_record)
    (h : n.state &&& NODE_STATE_BASE = NODE_STATE_DOWN) :
    (node_fold f n nodes).state &&& NODE_STATE_BASE = NODE_STATE_DOWN := by
  induction nodes generalizing n with
  | nil => exact h
  | cons b rest ih =>
    rw [node_fold_cons]
    apply ih
    split
    · exact node_step_down_persists f n b h
    · exact h

/-- After the iteration for a BASIL node whose status is not "UP" the record
is DOWN. -/
theorem node_step_not_up (f : Nat) (n : node_record) (b : basil_node)
    (hstate : b.basil_state ≠ "UP") :
    (node_step f n b).state &&& NODE_STATE_BASE = NODE_STATE_DOWN := by
  by_cases hup : n.state &&& NODE_STATE_BASE = NODE_STATE_DOWN
  · exact node_step_down_persists f n b hup
  · obtain ⟨r, hr, _⟩ := basil_reason_not_up f n b hup hstate
    rw [node_step_state, hr]
    exact node_state_down_base _

theorem node_fold_not_up (f : Nat) (nodes : List basil_node) (n : node_record) (b : basil_node)
    (hb : b ∈ nodes) (hname : b.basil_node_name = n.name) (hstate : b.basil_state ≠ "UP") :
    (node_fold f n nodes).state &&& NODE_STATE_BASE = NODE_STATE_DOWN := by
  induction nodes generalizing n with
  | nil => simp at hb
  | cons c rest ih =>
    rw [node_fold_cons]
    rcases List.mem_cons.mp hb with rfl | hb'
    · rw [if_pos hname]
      exact node_fold_down_persists f rest _ (node_step_not_up f n b hstate)
    · apply ih _ hb'
      split
      · rw [node_step_name]; exact hname
      · exact hname

end HAVE_BASIL

/-- C8: status defect forces DOWN. For every locally known record (the one
`find_node_record` returns for the name, at index `i`) whose base state is not
DOWN and every BASIL node `b` for it whose status is not "UP", whatever the
role, cpus, memory and `fast_schedule`: the iteration of the node loop for `b`
records the stamp of `last_node_update`, a `set_node_down` call for the name
with a non-empty reason and a `_sync_bitmaps` call for the record, and leaves
the record DOWN; and a pass whose reply holds `b` succeeds and leaves the
record DOWN. -/
theorem C8_status_defect_forces_down (st : slurmctld) (reply : basil_reply) (b : basil_node)
    (i : Nat) (n : node_record) (hb : b ∈ reply.nodes)
    (hfind : find_node_record st.node_record_table_ptr b.basil_node_name = some i)
    (hget : st.node_record_table_ptr[i]? = some n)
    (hup : n.state &&& NODE_STATE_BASE ≠ NODE_STATE_DOWN)
    (hstate : b.basil_state ≠ "UP") :
    (∃ r, r ≠ "" ∧
      (HAVE_BASIL.basil_query_node st b).calls = st.calls ++ [Event.last_node_update,
        Event.set_node_down b.basil_node_name r, Event._sync_bitmaps i] ∧
      ∃ m, (HAVE_BASIL.basil_query_node st b).node_record_table_ptr[i]? = some m ∧
        m.state &&& NODE_STATE_BASE = NODE_STATE_DOWN) ∧
    (HAVE_BASIL.basil_query false reply st).1 = SLURM_SUCCESS ∧
    ∃ m, (HAVE_BASIL.basil_query false reply st).2.node_record_table_ptr[i]? = some m ∧
      m.state &&& NODE_STATE_BASE = NODE_STATE_DOWN := by
  obtain ⟨n', hget', hname⟩ := find_node_record_some _ _ _ hfind
  rw [hget] at hget'
  cases hget'
  obtain ⟨r, hr, hne⟩ := HAVE_BASIL.basil_reason_not_up st.fast_schedule n b hup hstate
  refine ⟨⟨r, hne, ?_, ?_⟩, ?_, ?_⟩
  · rw [HAVE_BASIL.basil_query_node_eq]
    simp only [HAVE_BASIL.pass_calls, hfind, hget, HAVE_BASIL.node_calls, hr, hname]
  · rw [HAVE_BASIL.basil_query_node_eq]
    refine ⟨_, HAVE_BASIL.node_pass_get _ _ b i n hget, ?_⟩
    rw [if_pos hfind]
    exact HAVE_BASIL.node_step_not_up _ n b hstate
  · rw [HAVE_BASIL.basil_query_eq]
  · rw [HAVE_BASIL.basil_query_eq]
    refine ⟨_, HAVE_BASIL.node_loop_get _ reply.nodes _ i n hget, ?_⟩
    rw [if_pos (by rw [hname]; exact hfind)]
    exact HAVE_BASIL.node_fold_not_up _ _ n b hb hname.symm hstate

/-- Witness of C8: "n1" of the scenarios reported with status "DOWN". -/
theorem C8_status_defect_forces_down_witness :
    ∃ m, (HAVE_BASIL.basil_query false ⟨[{ scenario_A with basil_state := "DOWN" }], []⟩
        scenario_state).2.node_record_table_ptr[0]? = some m ∧
      m.state &&& NODE_STATE_BASE = NODE_STATE_DOWN :=
  (C8_status_defect_forces_down scenario_state
    ⟨[{ scenario_A with basil_state := "DOWN" }], []⟩ { scenario_A with basil_state := "DOWN" }
    0 scenario_n1 (by decide) (by decide) (by decide) (by decide) (by decide)).2.2

/-- C9: capacity defect under strict validation. With `fast_schedule != 2`,
for every locally known record that is not DOWN and whose only BASIL node `b`
has a node id other than `NO_VAL`, status "UP", role "BATCH", fewer cpus than
the baseline and memory not below the baseline: the pass succeeds, leaves the
record DOWN, records exactly one `set_node_down` call for its name, with reason
"Low CPUs", and exactly one `_sync_bitmaps` call for the record. -/
theorem C9_low_cpus_forces_down (st : slurmctld) (reply : basil_reply)
    (pre post : List basil_node) (b : basil_node) (i : Nat) (n : node_record)
    (hnodes : reply.nodes = pre ++ b :: post)
    (hpre : ∀ x ∈ pre, x.basil_node_name ≠ b.basil_node_name)
    (hpost : ∀ x ∈ post, x.basil_node_name ≠ b.basil_node_name)
    (hfind : find_node_record st.node_record_table_ptr b.basil_node_name = some i)
    (hget : st.node_record_table_ptr[i]? = some n)
    (hstrict : st.fast_schedule ≠ 2)
    (_hid : b.basil_node_id ≠ NO_VAL)
    (_hstate : b.basil_state = "UP") (_hrole : b.basil_role = "BATCH")
    (hcpu : b.basil_cpus < n.config_ptr.cpus)
    (hmem : n.config_ptr.real_memory ≤ b.basil_memory)
    (_hup : n.state &&& NODE_STATE_BASE ≠ NODE_STATE_DOWN) :
    (HAVE_BASIL.basil_query false reply st).1 = SLURM_SUCCESS ∧
    (∃ m, (HAVE_BASIL.basil_query false reply st).2.node_record_table_ptr[i]? = some m ∧
      m.state &&& NODE_STATE_BASE = NODE_STATE_DOWN) ∧
    ∃ new, (HAVE_BASIL.basil_query false reply st).2.calls = st.calls ++ new ∧
      new.count (Event._sync_bitmaps i) = 1 ∧
      new.count (Event.set_node_down b.basil_node_name "Low CPUs") = 1 ∧
      ∀ r, Event.set_node_down b.basil_node_name r ∈ new → r = "Low CPUs" := by
  obtain ⟨n', hget', hname⟩ := find_node_record_some _ _ _ hfind
  rw [hget] at hget'
  cases hget'
  have hreason := HAVE_BASIL.basil_reason_low_cpus st.fast_schedule n b hstrict hcpu hmem
  rw [HAVE_BASIL.basil_query_eq, hnodes]
  refine ⟨rfl, ⟨_, HAVE_BASIL.node_loop_single _ _ pre post b i n hfind hget hpre hpost, ?_⟩,
    ⟨_, List.append_assoc _ _ _, ?_⟩⟩
  · rw [HAVE_BASIL.node_step_state, hreason]
    exact node_state_down_base _
  · have hcount := fun e he => HAVE_BASIL.pass_count_single st.fast_schedule
      st.node_record_table_ptr pre post b i n
      (List.filter (fun r => st.job_list.any (fun j => decide (j.select_jobinfo = r)))
        reply.reservations) e hfind hget hpre hpost he
    simp only [HAVE_BASIL.node_calls, hreason, hname] at hcount
    refine ⟨?_, ?_, ?_⟩
    · rw [hcount _ (Or.inl rfl)]
      simp [List.count_cons]
    · rw [hcount _ (Or.inr ⟨_, rfl⟩)]
      simp [List.count_cons]
    · intro r hr
      by_contra hne
      have h0 := hcount _ (Or.inr ⟨r, rfl⟩)
      rw [show List.count (Event.set_node_down b.basil_node_name r)
          [Event.last_node_update, Event.set_node_down b.basil_node_name "Low CPUs",
            Event._sync_bitmaps i] = 0 by simp [List.count_cons, Ne.symm hne]] at h0
      exact List.count_eq_zero.mp h0 hr

/-- Witness of C9: scenario B, "n1" reporting 8 cpus against the baseline 16. -/
theorem C9_low_cpus_forces_down_witness :
    (HAVE_BASIL.basil_query false ⟨[scenario_B], []⟩ scenario_state).1 = SLURM_SUCCESS ∧
    (∃ m, (HAVE_BASIL.basil_query false ⟨[scenario_B], []⟩
        scenario_state).2.node_record_table_ptr[0]? = some m ∧
      m.state &&& NODE_STATE_BASE = NODE_STATE_DOWN) ∧
    ∃ new, (HAVE_BASIL.basil_query false ⟨[scenario_B], []⟩ scenario_state).2.calls
        = scenario_state.calls ++ new ∧
      new.count (Event._sync_bitmaps 0) = 1 ∧
      new.count (Event.set_node_down "n1" "Low CPUs") = 1 ∧
      ∀ r, Event.set_node_down "n1" r ∈ new → r = "Low CPUs" :=
  C9_low_cpus_forces_down scenario_state ⟨[scenario_B], []⟩ [] [] scenario_B 0 scenario_n1
    rfl (by decide) (by decide) (by decide) (by decide) (by decide) (by decide) (by decide)
    (by decide) (by decide) (by decide) (by decide)

end Slurm

/-! ## Repeating a pass -/

namespace Slurm

namespace HAVE_BASIL

theorem node_fold_config (f : Nat) (nodes : List basil_node) (n : node_record) :
    (node_fold f n nodes).config_ptr = n.config_ptr := by
  induction nodes generalizing n with
  | nil => rfl
  | cons b rest ih =>
    rw [node_fold_cons, ih]
    split
    · exact node_step_config f n b
    · rfl

theorem node_step_eq (f : Nat) (n : node_record) (b : basil_node) :
    node_step f n b =
      { name := n.name
        arch := if n.arch = none then xstrdup b.basil_node_arch else n.arch
        cpus := b.basil_cpus
        real_memory := b.basil_memory
        state := if (basil_reason f n b).isSome then node_state_down n.state else n.state
        basil_node_id := b.basil_node_id
        config_ptr := n.config_ptr } := by
  unfold node_step
  cases basil_reason f n b <;> simp [basil_node_fields_eq]

theorem basil_reason_congr (f : Nat) (x y : node_record) (b : basil_node)
    (hs : x.state = y.state) (hc : x.config_ptr = y.config_ptr) :
    basil_reason f x b = basil_reason f y b := by
  simp [basil_reason, hs, hc]

/-- The fields the loop overwrites do not depend on the record it started from,
once a BASIL node of its name was seen. -/
theorem node_fold_overwritten (f : Nat) (nodes : List basil_node) (x y : node_record)
    (hname : x.name = y.name)
    (h : (x.cpus = y.cpus ∧ x.real_memory = y.real_memory ∧ x.basil_node_id = y.basil_node_id) ∨
      ∃ b ∈ nodes, b.basil_node_name = x.name) :
    (node_fold f x nodes).cpus = (node_fold f y nodes).cpus ∧
    (node_fold f x nodes).real_memory = (node_fold f y nodes).real_memory ∧
    (node_fold f x nodes).basil_node_id = (node_fold f y nodes).basil_node_id := by
  induction nodes generalizing x y with
  | nil =>
    rcases h with h | ⟨b, hb, _⟩
    · exact h
    · simp at hb
  | cons c rest ih =>
    rw [node_fold_cons, node_fold_cons, ← hname]
    by_cases hc : c.basil_node_name = x.name
    · rw [if_pos hc, if_pos hc]
      apply ih
      · rw [node_step_name, node_step_name, hname]
      · left; simp [node_step_eq]
    · rw [if_neg hc, if_neg hc]
      apply ih _ _ hname
      rcases h with h | ⟨b, hb, hbn⟩
      · exact Or.inl h
      · rcases List.mem_cons.mp hb with rfl | hb'
        · exact absurd hbn hc
        · exact Or.inr ⟨b, hb', hbn⟩

theorem node_fold_arch_some (f : Nat) (nodes : List basil_node) (x : node_record) (a : String)
    (h : x.arch = some a) : (node_fold f x nodes).arch = some a := by
  induction nodes generalizing x with
  | nil => exact h
  | cons c rest ih =>
    rw [node_fold_cons]
    apply ih
    split
    · simp [node_step_eq, h]
    · exact h

theorem node_fold_arch_none (f : Nat) (nodes : List basil_node) (x y : node_record)
    (hname : x.name = y.name) (hy : y.arch = none) (h : (node_fold f x nodes).arch = none) :
    (node_fold f y nodes).arch = none := by
  induction nodes generalizing x y with
  | nil => exact hy
  | cons c rest ih =>
    rw [node_fold_cons] at h ⊢
    rw [← hname]
    by_cases hc : c.basil_node_name = x.name
    · rw [if_pos hc] at h ⊢
      have hx' : (node_step f x c).arch = none := by
        cases hx : (node_step f x c).arch with
        | none => rfl
        | some a => rw [node_fold_arch_some f rest _ a hx] at h; cases h
      apply ih _ _ (by rw [node_step_name, node_step_name, hname]) _ h
      rw [node_step_eq] at hx' ⊢
      simp only at hx' ⊢
      by_cases hxa : x.arch = none
      · rw [if_pos hxa] at hx'
        rw [if_pos hy]; exact hx'
      · rw [if_neg hxa] at hx'
        exact absurd hx' hxa
    · rw [if_neg hc] at h ⊢
      exact ih _ _ hname hy h

theorem node_fold_state_cases (f : Nat) (nodes : List basil_node) (x : node_record) :
    (node_fold f x nodes).state = x.state ∨
      (node_fold f x nodes).state = node_state_down x.state := by
  induction nodes generalizing x with
  | nil => exact Or.inl rfl
  | cons c rest ih =>
    rw [node_fold_cons]
    split
    · rcases ih (node_step f x c) with h | h
      · rw [h, node_step_state]
        split
        · exact Or.inr rfl
        · exact Or.inl rfl
      · rw [h, node_step_state]
        split
        · exact Or.inr (node_state_down_idem _)
        · exact Or.inr rfl
    · exact ih x

theorem node_fold_state_down (f : Nat) (nodes : List basil_node) (x : node_record) (s : Nat)
    (h : x.state = node_state_down s) : (node_fold f x nodes).state = x.state := by
  rcases node_fold_state_cases f nodes x with h' | h'
  · exact h'
  · rw [h', h, node_state_down_idem]

theorem node_fold_state_congr (f : Nat) (nodes : List basil_node) (x y : node_record)
    (hname : x.name = y.name) (hc : x.config_ptr = y.config_ptr) (hs : x.state = y.state) :
    (node_fold f x nodes).state = (node_fold f y nodes).state := by
  induction nodes generalizing x y with
  | nil => exact hs
  | cons c rest ih =>
    rw [node_fold_cons, node_fold_cons, ← hname]
    split
    · apply ih
      · rw [node_step_name, node_step_name, hname]
      · rw [node_step_config, node_step_config, hc]
      · rw [node_step_state, node_step_state, basil_reason_congr f x y c hs hc, hs]
    · exact ih _ _ hname hc hs

/-- Applying the BASIL nodes of a reply to a record a second time changes
nothing. -/
theorem node_fold_idem (f : Nat) (nodes : List basil_node) (n : node_record) :
    node_fold f (node_fold f n nodes) nodes = node_fold f n nodes := by
  by_cases hex : ∃ b ∈ nodes, b.basil_node_name = n.name
  · have hname := node_fold_name f nodes n
    have hconfig := node_fold_config f nodes n
    have h1 := node_fold_overwritten f nodes (node_fold f n nodes) n hname
      (Or.inr (by rw [hname]; exact hex))
    have h2 : (node_fold f (node_fold f n nodes) nodes).arch = (node_fold f n nodes).arch := by
      cases ha : (node_fold f n nodes).arch with
      | some a => exact node_fold_arch_some f nodes _ a ha
      | none => exact node_fold_arch_none f nodes n _ hname.symm ha ha
    have h3 : (node_fold f (node_fold f n nodes) nodes).state = (node_fold f n nodes).state := by
      rcases node_fold_state_cases f nodes n with h | h
      · rw [node_fold_state_congr f nodes _ n hname hconfig h]
      · exact node_fold_state_down f nodes _ _ h
    have h4 := node_fold_name f nodes (node_fold f n nodes)
    have h5 := node_fold_config f nodes (node_fold f n nodes)
    generalize node_fold f (node_fold f n nodes) nodes = a at *
    generalize node_fold f n nodes = c at *
    cases a
    cases c
    simp only at h1 h2 h3 h4 h5
    simp only [node_record.mk.injEq]
    exact ⟨h4, h2, h1.1, h1.2.1, h3, h1.2.2, h5⟩
  · have hother : ∀ x ∈ nodes, x.basil_node_name ≠ n.name := fun x hx hn => hex ⟨x, hx, hn⟩
    rw [node_fold_other f nodes n hother, node_fold_other f nodes n hother]

theorem node_loop_length (f : Nat) (nodes : List basil_node) (table : List node_record) :
    (nodes.foldl (node_pass f) table).length = table.length := by
  induction nodes generalizing table with
  | nil => rfl
  | cons b rest ih =>
    rw [List.foldl_cons, ih]
    have := congrArg List.length (node_pass_names f table b)
    simpa using this

/-- The node loop run a second time over the same BASIL nodes leaves the node
table as the first run left it. -/
theorem node_loop_idem (f : Nat) (nodes : List basil_node) (table : List node_record) :
    nodes.foldl (node_pass f) (nodes.foldl (node_pass f) table) = nodes.foldl (node_pass f) table := by
  apply List.ext_getElem?
  intro i
  cases hget : table[i]? with
  | none =>
    have hlen : table.length ≤ i := List.getElem?_eq_none_iff.mp hget
    rw [List.getElem?_eq_none (by rw [node_loop_length, node_loop_length]; exact hlen),
      List.getElem?_eq_none (by rw [node_loop_length]; exact hlen)]
  | some n =>
    have h1 := node_loop_get f nodes table i n hget
    rw [node_loop_get f nodes _ i _ h1, h1]
    congr 1
    by_cases hfirst : find_node_record table n.name = some i
    · simp only [hfirst, if_true, node_fold_name, node_loop_find, node_fold_idem]
    · simp only [hfirst, if_false, node_loop_find]

end HAVE_BASIL

end Slurm

namespace Slurm

namespace HAVE_BASIL

/-- A property of the record found for a BASIL node that the iterations of the
node loop keep, is kept by one iteration for every BASIL node of a list. -/
theorem node_pass_keeps (Q : basil_node → node_record → Prop) (f : Nat)
    (hQ : ∀ b n c, Q b n → Q b (node_step f n c)) (nodes : List basil_node)
    (table : List node_record) (c : basil_node)
    (h : ∀ b ∈ nodes, ∀ i n, find_node_record table b.basil_node_name = some i →
      table[i]? = some n → Q b n) :
    ∀ b ∈ nodes, ∀ i n, find_node_record (node_pass f table c) b.basil_node_name = some i →
      (node_pass f table c)[i]? = some n → Q b n := by
  intro b hb i n' hfind' hget'
  rw [node_pass_find] at hfind'
  obtain ⟨n, hget, _⟩ := find_node_record_some _ _ _ hfind'
  rw [node_pass_get f table c i n hget] at hget'
  cases hget'
  split
  · exact hQ b n c (h b hb i n hfind' hget)
  · exact h b hb i n hfind' hget

theorem node_loop_keeps (Q : basil_node → node_record → Prop) (f : Nat)
    (hQ : ∀ b n c, Q b n → Q b (node_step f n c)) (nodes cs : List basil_node)
    (table : List node_record)
    (h : ∀ b ∈ nodes, ∀ i n, find_node_record table b.basil_node_name = some i →
      table[i]? = some n → Q b n) :
    ∀ b ∈ nodes, ∀ i n, find_node_record (cs.foldl (node_pass f) table) b.basil_node_name = some i →
      (cs.foldl (node_pass f) table)[i]? = some n → Q b n := by
  induction cs generalizing table with
  | nil => exact h
  | cons c rest ih =>
    rw [List.foldl_cons]
    exact ih _ (node_pass_keeps Q f hQ nodes table c h)

/-- After the iteration for a BASIL node whose status is not "UP" or whose role
is not "BATCH" the record is DOWN. -/
theorem node_step_defect (f : Nat) (n : node_record) (b : basil_node)
    (hdef : ¬ (b.basil_state = "UP" ∧ b.basil_role = "BATCH")) :
    (node_step f n b).state &&& NODE_STATE_BASE = NODE_STATE_DOWN := by
  by_cases hup : n.state &&& NODE_STATE_BASE = NODE_STATE_DOWN
  · exact node_step_down_persists f n b hup
  · have hsome : (basil_reason f n b).isSome = true := by
      unfold basil_reason
      by_cases hs : b.basil_state = "UP"
      · have hr : b.basil_role ≠ "BATCH" := fun hr => hdef ⟨hs, hr⟩
        simp only [hup, hs, hr, ne_eq, not_false_eq_true, not_true_eq_false, if_true, if_false]
        split <;> [rfl; (split <;> rfl)]
      · simp only [hup, hs, ne_eq, not_false_eq_true, if_true]
        split <;> [rfl; (split <;> rfl)]
    rw [node_step_state, hsome]
    exact node_state_down_base _

theorem node_fold_defect (f : Nat) (nodes : List basil_node) (n : node_record) (b : basil_node)
    (hb : b ∈ nodes) (hname : b.basil_node_name = n.name)
    (hdef : ¬ (b.basil_state = "UP" ∧ b.basil_role = "BATCH")) :
    (node_fold f n nodes).state &&& NODE_STATE_BASE = NODE_STATE_DOWN := by
  induction nodes generalizing n with
  | nil => simp at hb
  | cons c rest ih =>
    rw [node_fold_cons]
    rcases List.mem_cons.mp hb with rfl | hb'
    · rw [if_pos hname]
      exact node_fold_down_persists f rest _ (node_step_defect f n b hdef)
    · apply ih _ hb'
      split
      · rw [node_step_name]; exact hname
      · exact hname

/-- After the node loop, every BASIL node of the reply with a status or role
defect finds its record DOWN. -/
theorem node_loop_settled (f : Nat) (nodes : List basil_node) (table : List node_record) :
    ∀ b ∈ nodes, ∀ i n,
      find_node_record (nodes.foldl (node_pass f) table) b.basil_node_name = some i →
      (nodes.foldl (node_pass f) table)[i]? = some n →
      (n.state &&& NODE_STATE_BASE ≠ NODE_STATE_DOWN →
        b.basil_state = "UP" ∧ b.basil_role = "BATCH") := by
  intro b hb i n' hfind' hget' hup
  rw [node_loop_find] at hfind'
  obtain ⟨n, hget, hname⟩ := find_node_record_some _ _ _ hfind'
  rw [node_loop_get f nodes table i n hget, if_pos (by rw [hname]; exact hfind')] at hget'
  cases hget'
  by_contra hdef
  exact hup (node_fold_defect f nodes n b hb hname.symm hdef)

/-- For a record that is DOWN or whose BASIL node has status "UP" and role
"BATCH", a reason can only come from the capacity tests of strict validation. -/
theorem basil_reason_capacity (f : Nat) (n : node_record) (b : basil_node) (r : String)
    (h : n.state &&& NODE_STATE_BASE ≠ NODE_STATE_DOWN →
      b.basil_state = "UP" ∧ b.basil_role = "BATCH")
    (hr : basil_reason f n b = some r) :
    (r = "Low CPUs" ∨ r = "Low RealMemory") ∧ f ≠ 2 ∧
      (b.basil_cpus < n.config_ptr.cpus ∨ b.basil_memory < n.config_ptr.real_memory) := by
  have hnone : (if n.state &&& NODE_STATE_BASE ≠ NODE_STATE_DOWN then
        if b.basil_state ≠ "UP" then some "basil state not UP"
        else if b.basil_role ≠ "BATCH" then some "basil role not BATCH"
        else (none : Option String)
      else none) = none := by
    by_cases hup : n.state &&& NODE_STATE_BASE = NODE_STATE_DOWN
    · simp [hup]
    · simp [hup, (h hup).1, (h hup).2]
  unfold basil_reason at hr
  simp only [hnone] at hr
  by_cases hm : f ≠ 2 ∧ b.basil_memory < n.config_ptr.real_memory
  · rw [if_pos hm] at hr
    cases hr
    exact ⟨Or.inr rfl, hm.1, Or.inr hm.2⟩
  · rw [if_neg hm] at hr
    by_cases hc : f ≠ 2 ∧ b.basil_cpus < n.config_ptr.cpus
    · rw [if_pos hc] at hr
      cases hr
      exact ⟨Or.inl rfl, hc.1, Or.inl hc.2⟩
    · rw [if_neg hc] at hr
      cases hr

/-- In a node loop over a table in which every BASIL node with a status or
role defect finds its record DOWN, every call comes from an iteration whose
reason is a capacity reason of strict validation, for a BASIL node below the
baseline of the record it finds. -/
theorem loop_calls_settled (f : Nat) (nodes cs : List basil_node) (table : List node_record)
    (hcs : ∀ c ∈ cs, c ∈ nodes)
    (h : ∀ b ∈ nodes, ∀ i n, find_node_record table b.basil_node_name = some i →
      table[i]? = some n →
      (n.state &&& NODE_STATE_BASE ≠ NODE_STATE_DOWN →
        b.basil_state = "UP" ∧ b.basil_role = "BATCH"))
    (P : basil_node → node_record → Prop)
    (hP : ∀ b n c, P b n → P b (node_step f n c))
    (hPt : ∀ b ∈ nodes, ∀ i n, find_node_record table b.basil_node_name = some i →
      table[i]? = some n → P b n) :
    ∀ e ∈ loop_calls f table cs, ∃ c ∈ nodes, ∃ n r, P c n ∧ f ≠ 2 ∧
      (c.basil_cpus < n.config_ptr.cpus ∨ c.basil_memory < n.config_ptr.real_memory) ∧
      (r = "Low CPUs" ∨ r = "Low RealMemory") ∧
      (∀ name r', e = Event.set_node_down name r' → r' = r) := by
  induction cs generalizing table with
  | nil => simp [loop_calls]
  | cons c rest ih =>
    intro e he
    simp only [loop_calls, List.mem_append] at he
    rcases he with he | he
    · unfold pass_calls at he
      cases hfind : find_node_record table c.basil_node_name with
      | none => simp [hfind] at he
      | some i =>
        obtain ⟨n, hget, _⟩ := find_node_record_some _ _ _ hfind
        simp only [hfind, hget, node_calls] at he
        have hcn := hcs c (List.mem_cons_self _ _)
        cases hr : basil_reason f n c with
        | none => simp [hr] at he
        | some r =>
          obtain ⟨h1, h2, h3⟩ := basil_reason_capacity f n c r (h c hcn i n hfind hget) hr
          refine ⟨c, hcn, n, r, hPt c hcn i n hfind hget, h2, h3, h1, ?_⟩
          intro name r' hev
          simp only [hr, List.mem_cons, List.mem_singleton, List.mem_nil_iff, or_false] at he
          rcases he with rfl | rfl | rfl
          · cases hev
          · cases hev; rfl
          · cases hev
    · exact ih (node_pass f table c) (fun x hx => hcs x (List.mem_cons_of_mem _ hx))
        (node_pass_keeps _ f
          (fun b n c hq hup => hq (fun hd => hup (node_step_down_persists f n c hd)))
          nodes table c h)
        (node_pass_keeps P f hP nodes table c hPt) e he

end HAVE_BASIL

end Slurm

namespace Slurm

/-- C10 (the claim as stated fails): scenario B, "n1" reporting 8 cpus against
the baseline 16 under strict validation. The first pass sets "n1" DOWN; the
second pass with the same reply calls `set_node_down` and `_sync_bitmaps` for it
again. -/
theorem C10_second_pass_repeats_capacity_calls :
    (HAVE_BASIL.second_pass ⟨[scenario_B], []⟩ scenario_state).2.calls =
      [Event.last_node_update, Event.set_node_down "n1" "Low CPUs", Event._sync_bitmaps 0] := by
  decide

/-- C10 (amended): for every state and BASIL reply, a second pass with the
same reply succeeds and leaves the node table exactly as the first pass left
it. The second pass produces no reason from status or role: every
`set_node_down` call it records has reason "Low CPUs" or "Low RealMemory" (the
capacity tests of strict validation are repeated for records that are already
DOWN). When no BASIL node of the reply is below the baseline of its record
under strict validation, in particular when `fast_schedule == 2`, the second
pass records no `set_node_down`, `_sync_bitmaps` or `last_node_update` at all. -/
theorem C10_second_pass_same_table (st : slurmctld) (reply : basil_reply) :
    (HAVE_BASIL.second_pass reply st).1 = SLURM_SUCCESS ∧
    (HAVE_BASIL.second_pass reply st).2.node_record_table_ptr
      = (HAVE_BASIL.basil_query false reply st).2.node_record_table_ptr ∧
    (∀ name r, Event.set_node_down name r ∈ (HAVE_BASIL.second_pass reply st).2.calls →
      r = "Low CPUs" ∨ r = "Low RealMemory") ∧
    ((∀ b ∈ reply.nodes, ∀ i n,
        find_node_record st.node_record_table_ptr b.basil_node_name = some i →
        st.node_record_table_ptr[i]? = some n →
        ¬ (st.fast_schedule ≠ 2 ∧
          (b.basil_cpus < n.config_ptr.cpus ∨ b.basil_memory < n.config_ptr.real_memory))) →
      ∀ e ∈ (HAVE_BASIL.second_pass reply st).2.calls, ∃ id, e = Event.basil_dealloc id) := by
  have hcalls : (HAVE_BASIL.second_pass reply st).2.calls =
      HAVE_BASIL.loop_calls st.fast_schedule
        (reply.nodes.foldl (HAVE_BASIL.node_pass st.fast_schedule) st.node_record_table_ptr)
        reply.nodes ++ List.map Event.basil_dealloc
          (List.filter (fun r => st.job_list.any (fun j => decide (j.select_jobinfo = r)))
            reply.reservations) := by
    unfold HAVE_BASIL.second_pass
    rw [HAVE_BASIL.basil_query_eq, HAVE_BASIL.basil_query_eq]
    simp
  have hsettled := HAVE_BASIL.node_loop_settled st.fast_schedule reply.nodes
    st.node_record_table_ptr
  refine ⟨?_, ?_, ?_, ?_⟩
  · unfold HAVE_BASIL.second_pass
    rw [HAVE_BASIL.basil_query_eq]
  · unfold HAVE_BASIL.second_pass
    rw [HAVE_BASIL.basil_query_eq, HAVE_BASIL.basil_query_eq]
    exact HAVE_BASIL.node_loop_idem _ _ _
  · intro name r hmem
    rw [hcalls, List.mem_append] at hmem
    rcases hmem with hmem | hmem
    · obtain ⟨c, _, n, r0, _, _, _, hr0, hev⟩ :=
        HAVE_BASIL.loop_calls_settled st.fast_schedule reply.nodes reply.nodes _
          (fun c hc => hc) hsettled (fun _ _ => True) (fun _ _ _ _ => trivial)
          (fun _ _ _ _ _ _ => trivial) _ hmem
      rw [hev name r rfl]
      exact hr0
    · simp at hmem
  · intro hcap e hmem
    rw [hcalls, List.mem_append] at hmem
    rcases hmem with hmem | hmem
    · obtain ⟨c, _, n, r0, hP, hf, hc, _, _⟩ :=
        HAVE_BASIL.loop_calls_settled st.fast_schedule reply.nodes reply.nodes _
          (fun c hc => hc) hsettled
          (fun b n => ¬ (st.fast_schedule ≠ 2 ∧
            (b.basil_cpus < n.config_ptr.cpus ∨ b.basil_memory < n.config_ptr.real_memory)))
          (fun b n c hq => by simpa only [HAVE_BASIL.node_step_config] using hq)
          (HAVE_BASIL.node_loop_keeps _ st.fast_schedule
            (fun b n c hq => by simpa only [HAVE_BASIL.node_step_config] using hq)
            reply.nodes reply.nodes st.node_record_table_ptr hcap) _ hmem
      exact absurd ⟨hf, hc⟩ hP
    · obtain ⟨id, _, rfl⟩ := List.mem_map.mp hmem
      exact ⟨id, rfl⟩

/-- Witness of C10 (amended): scenario A repeated; the second pass records no
call at all. -/
theorem C10_second_pass_same_table_witness :
    (HAVE_BASIL.second_pass ⟨[scenario_A], []⟩ scenario_state).2.node_record_table_ptr
      = (HAVE_BASIL.basil_query false ⟨[scenario_A], []⟩ scenario_state).2.node_record_table_ptr ∧
    ∀ e ∈ (HAVE_BASIL.second_pass ⟨[scenario_A], []⟩ scenario_state).2.calls,
      ∃ id, e = Event.basil_dealloc id :=
  ⟨(C10_second_pass_same_table scenario_state ⟨[scenario_A], []⟩).2.1,
    (C10_second_pass_same_table scenario_state ⟨[scenario_A], []⟩).2.2.2 (by
      intro b hb i n hfind hget
      rw [List.mem_singleton.mp hb] at hfind ⊢
      have h0 : find_node_record scenario_state.node_record_table_ptr
          scenario_A.basil_node_name = some 0 := by decide
      rw [h0] at hfind
      cases hfind
      have hn : scenario_n1 = n := by simpa [scenario_state] using hget
      subst hn
      decide)⟩

end Slurm

/-! ## Failed request, degraded calls and the string helpers -/

namespace Slurm

/-- C11: transport failure is atomic. For every state and every reply, when the
BASIL QUERY request fails, `basil_query` returns `SLURM_ERROR`, which is not
`SLURM_SUCCESS`, and the state is the one it started from: every node record,
the job table and the record of calls (no `set_node_down`, `_sync_bitmaps` or
`basil_dealloc`) are unchanged. -/
theorem C11_transport_failure_is_atomic (reply : basil_reply) (st : slurmctld) :
    (HAVE_BASIL.basil_query true reply st).1 = SLURM_ERROR ∧
    (HAVE_BASIL.basil_query true reply st).1 ≠ SLURM_SUCCESS ∧
    (HAVE_BASIL.basil_query true reply st).2 = st ∧
    (HAVE_BASIL.basil_query true reply st).2.node_record_table_ptr = st.node_record_table_ptr ∧
    (HAVE_BASIL.basil_query true reply st).2.job_list = st.job_list ∧
    (HAVE_BASIL.basil_query true reply st).2.calls = st.calls := by
  have h : HAVE_BASIL.basil_query true reply st = (SLURM_ERROR, st) := by
    simp [HAVE_BASIL.basil_query, HAVE_BASIL.fatal]
  rw [h]
  exact ⟨rfl, (by decide : SLURM_ERROR ≠ SLURM_SUCCESS), rfl, rfl, rfl, rfl⟩

/-- C12 (the code departs from the claim): job 1 with an empty reservation id,
in the job table, and counter 0. `basil_reserve`, entered with its local
`reservation_id` NULL, returns success with the counter at 1 and builds the
string "RES_1", and the job table still holds job 1 with the empty reservation
id: the id is not written to the job. -/
theorem C12_reserve_leaves_job_unchanged :
    NO_BASIL.basil_reserve ⟨[], [⟨1, ""⟩], 1, 0, []⟩ ⟨1, ""⟩ NO_BASIL.stack_value.null
      = some (SLURM_SUCCESS, ⟨[], [⟨1, ""⟩], 1, 1, []⟩, "RES_1") ∧
    (⟨1, ""⟩ : job_record).select_jobinfo ≠ "RES_1" := by
  decide

/-- C13: `basil_query` without HAVE_BASIL touches only the counter. For every
state it returns `SLURM_SUCCESS`; the node table (every field of every
record), the job table, `fast_schedule` and the record of calls (no
`set_node_down`, `_sync_bitmaps` or `basil_dealloc`) are unchanged: the new
state is the old one with a new `last_res_id`. -/
theorem C13_degraded_query_frame (st : slurmctld) :
    (NO_BASIL.basil_query st).1 = SLURM_SUCCESS ∧
    (NO_BASIL.basil_query st).2.node_record_table_ptr = st.node_record_table_ptr ∧
    (NO_BASIL.basil_query st).2.job_list = st.job_list ∧
    (NO_BASIL.basil_query st).2.fast_schedule = st.fast_schedule ∧
    (NO_BASIL.basil_query st).2.calls = st.calls ∧
    (NO_BASIL.basil_query st).2
      = { st with last_res_id := (NO_BASIL.basil_query st).2.last_res_id } := by
  simp [NO_BASIL.basil_query]

/-- The loop of `makespace` ends with room for what is wanted when it may run
often enough. -/
theorem makespace_grow_ge (fuel want size : Nat) (h : want ≤ size + XFGETS_CHUNKSIZE * fuel) :
    want ≤ makespace_grow fuel want size := by
  induction fuel generalizing size with
  | zero => simpa [makespace_grow] using h
  | succ k ih =>
    unfold makespace_grow
    split
    · apply ih
      unfold XFGETS_CHUNKSIZE at *
      omega
    · omega

/-- After `makespace` the string is unchanged (empty for NULL) and the
allocation has room for `needed` more characters and the terminating NUL. -/
theorem makespace_spec (str : Option xstr) (needed : Nat) :
    (makespace str needed).str = str.elim "" xstr.str ∧
    (makespace str needed).str.length + needed + 1 ≤ (makespace str needed).xsize := by
  cases str with
  | none => simp [makespace]
  | some s =>
    simp only [makespace, Option.elim, true_and]
    have := makespace_grow_ge (s.str.length + 1 + needed) (s.str.length + 1 + needed) s.xsize
      (by unfold XFGETS_CHUNKSIZE; omega)
    omega

/-- C14: `_xstrcat` appends. For every target `s` (NULL taken as the empty
string) and every source `t`, the target after `_xstrcat(&s, t)` is the old
`s` followed by `t`; for a NULL source it is the old `s` followed by "(null)";
after `_xstrcatchar(&s, c)` it is the old `s` followed by the character `c`.
In each case the allocation is large enough for the result and its
terminating NUL. -/
theorem C14_xstrcat_appends (s : Option xstr) (t : String) (c : Char) :
    (_xstrcat s (some t)).str = s.elim "" xstr.str ++ t ∧
    (_xstrcat s none).str = s.elim "" xstr.str ++ "(null)" ∧
    (_xstrcatchar s c).str = (s.elim "" xstr.str).push c ∧
    (_xstrcat s (some t)).str.length + 1 ≤ (_xstrcat s (some t)).xsize ∧
    (_xstrcat s none).str.length + 1 ≤ (_xstrcat s none).xsize ∧
    (_xstrcatchar s c).str.length + 1 ≤ (_xstrcatchar s c).xsize := by
  have h1 := makespace_spec s t.length
  have h2 := makespace_spec s "(null)".length
  have h3 := makespace_spec s 1
  refine ⟨?_, ?_, ?_, ?_, ?_, ?_⟩
  · simp [_xstrcat, h1.1]
  · simp [_xstrcat, h2.1]
  · simp [_xstrcatchar, strcatchar, h3.1]
  · have := h1.2
    simp only [_xstrcat, String.length_append]
    omega
  · have := h2.2
    simp only [_xstrcat, String.length_append]
    omega
  · have := h3.2
    simp only [_xstrcatchar, strcatchar, String.length_push]
    omega

end Slurm

/-! ## One iteration of the node loop -/

namespace Slurm

namespace HAVE_BASIL

/-- The record found for a BASIL node, after the iteration for that node. -/
theorem basil_query_node_get (st : slurmctld) (b : basil_node) (i : Nat) (n : node_record)
    (hfind : find_node_record st.node_record_table_ptr b.basil_node_name = some i)
    (hget : st.node_record_table_ptr[i]? = some n) :
    (basil_query_node st b).node_record_table_ptr[i]? = some (node_step st.fast_schedule n b) := by
  rw [basil_query_node_eq]
  simp only
  rw [node_pass_get _ _ b i n hget, if_pos hfind]

/-- The calls recorded by the iteration for a BASIL node whose record was
found. -/
theorem basil_query_node_calls (st : slurmctld) (b : basil_node) (i : Nat) (n : node_record)
    (hfind : find_node_record st.node_record_table_ptr b.basil_node_name = some i)
    (hget : st.node_record_table_ptr[i]? = some n) :
    (basil_query_node st b).calls = st.calls ++ node_calls st.fast_schedule i n b := by
  rw [basil_query_node_eq]
  simp only [pass_calls, hfind, hget]

/-- The value of `reason` for a record that is not DOWN, as a chain of tests:
the last capacity test that applies, else the status test, else the role
test. -/
theorem basil_reason_not_down (f : Nat) (n : node_record) (b : basil_node)
    (hup : n.state &&& NODE_STATE_BASE ≠ NODE_STATE_DOWN) :
    basil_reason f n b =
      if f ≠ 2 ∧ b.basil_memory < n.config_ptr.real_memory then some "Low RealMemory"
      else if f ≠ 2 ∧ b.basil_cpus < n.config_ptr.cpus then some "Low CPUs"
      else if b.basil_state ≠ "UP" then some "basil state not UP"
      else if b.basil_role ≠ "BATCH" then some "basil role not BATCH"
      else none := by
  unfold basil_reason
  simp only [hup, ne_eq, not_false_eq_true, if_true]

end HAVE_BASIL

/-- C15 (the claim as stated fails): record "n1" with `basil_node_id = 5` and a
BASIL node for it reporting id 7: after the iteration the record holds 7. -/
theorem C15_node_id_is_overwritten :
    (HAVE_BASIL.basil_query_node
        { scenario_state with
          node_record_table_ptr := [{ scenario_n1 with basil_node_id := 5 }] }
        { scenario_A with basil_node_id := 7 }).node_record_table_ptr.map
      (fun n => n.basil_node_id) = [7] := by
  decide

/-- C15 (amended): for every locally known record, whatever its
`basil_node_id` (set or `NO_VAL`), and every BASIL node for it, the iteration
for that node leaves the record with the reported node id: the id always
follows BASIL, a different earlier id is replaced. -/
theorem C15_node_id_follows_basil (st : slurmctld) (b : basil_node) (i : Nat)
    (n : node_record)
    (hfind : find_node_record st.node_record_table_ptr b.basil_node_name = some i)
    (hget : st.node_record_table_ptr[i]? = some n) :
    ∃ m, (HAVE_BASIL.basil_query_node st b).node_record_table_ptr[i]? = some m ∧
      m.basil_node_id = b.basil_node_id := by
  refine ⟨_, HAVE_BASIL.basil_query_node_get st b i n hfind hget, ?_⟩
  rw [HAVE_BASIL.node_step_eq]

/-- Witness of C15 (amended): "n1" holding id 5, BASIL reporting id 7. -/
theorem C15_node_id_follows_basil_witness :
    ∃ m, (HAVE_BASIL.basil_query_node
        { scenario_state with
          node_record_table_ptr := [{ scenario_n1 with basil_node_id := 5 }] }
        { scenario_A with basil_node_id := 7 }).node_record_table_ptr[0]? = some m ∧
      m.basil_node_id = 7 :=
  C15_node_id_follows_basil
    { scenario_state with node_record_table_ptr := [{ scenario_n1 with basil_node_id := 5 }] }
    { scenario_A with basil_node_id := 7 } 0 { scenario_n1 with basil_node_id := 5 }
    (by decide) (by decide)

/-- C16 (the claim as stated fails): record "n1" already DOWN (state 1),
strict validation, and scenario B (8 cpus against the baseline 16): the
iteration produces the reason "Low CPUs" and records the stamp, `set_node_down`
and `_sync_bitmaps`. -/
theorem C16_down_node_gets_capacity_reason :
    (HAVE_BASIL.basil_query_node
        { scenario_state with node_record_table_ptr := [{ scenario_n1 with state := 1 }] }
        scenario_B).calls =
      [Event.last_node_update, Event.set_node_down "n1" "Low CPUs", Event._sync_bitmaps 0] := by
  decide

/-- C16 (amended): for every locally known record whose base state is DOWN and
every BASIL node for it, whatever its status and role: a reason is produced
only by the capacity tests of strict validation, it is "Low CPUs" or
"Low RealMemory" and requires `fast_schedule != 2` and cpus or memory below
the baseline; when strict validation is off or neither is below the
baseline, no reason is produced and the iteration records no `set_node_down`,
no stamp of `last_node_update` and no `_sync_bitmaps`. -/
theorem C16_down_node_capacity_only (st : slurmctld) (b : basil_node) (i : Nat)
    (n : node_record)
    (hfind : find_node_record st.node_record_table_ptr b.basil_node_name = some i)
    (hget : st.node_record_table_ptr[i]? = some n)
    (hdown : n.state &&& NODE_STATE_BASE = NODE_STATE_DOWN) :
    (∀ r, HAVE_BASIL.basil_reason st.fast_schedule n b = some r →
      (r = "Low CPUs" ∨ r = "Low RealMemory") ∧ st.fast_schedule ≠ 2 ∧
        (b.basil_cpus < n.config_ptr.cpus ∨ b.basil_memory < n.config_ptr.real_memory)) ∧
    (¬ (st.fast_schedule ≠ 2 ∧
        (b.basil_cpus < n.config_ptr.cpus ∨ b.basil_memory < n.config_ptr.real_memory)) →
      HAVE_BASIL.basil_reason st.fast_schedule n b = none ∧
      (HAVE_BASIL.basil_query_node st b).calls = st.calls) := by
  have hcap := fun r => HAVE_BASIL.basil_reason_capacity st.fast_schedule n b r
    (fun hup => absurd hdown hup)
  refine ⟨hcap, ?_⟩
  intro hno
  have hnone : HAVE_BASIL.basil_reason st.fast_schedule n b = none := by
    cases hr : HAVE_BASIL.basil_reason st.fast_schedule n b with
    | none => rfl
    | some r => exact absurd ⟨(hcap r hr).2.1, (hcap r hr).2.2⟩ hno
  refine ⟨hnone, ?_⟩
  rw [HAVE_BASIL.basil_query_node_calls st b i n hfind hget]
  simp [HAVE_BASIL.node_calls, hnone]

/-- Witness of C16 (amended): "n1" already DOWN and scenario A reported with
status "DOWN": no reason, no call. -/
theorem C16_down_node_capacity_only_witness :
    HAVE_BASIL.basil_reason 1 { scenario_n1 with state := 1 }
        { scenario_A with basil_state := "DOWN" } = none ∧
    (HAVE_BASIL.basil_query_node
        { scenario_state with node_record_table_ptr := [{ scenario_n1 with state := 1 }] }
        { scenario_A with basil_state := "DOWN" }).calls = [] :=
  (C16_down_node_capacity_only
    { scenario_state with node_record_table_ptr := [{ scenario_n1 with state := 1 }] }
    { scenario_A with basil_state := "DOWN" } 0 { scenario_n1 with state := 1 }
    (by decide) (by decide) (by decide)).2 (by decide)

/-- C17 (the claim as stated fails): "n1" not DOWN and a BASIL node with status
"DOWN", role "INTERACTIVE" and no capacity defect: the reason passed to
`set_node_down` is "basil state not UP" and not "basil role not BATCH". -/
theorem C17_status_reason_hides_role_reason :
    (HAVE_BASIL.basil_query_node scenario_state
        { scenario_A with basil_state := "DOWN", basil_role := "INTERACTIVE" }).calls =
      [Event.last_node_update, Event.set_node_down "n1" "basil state not UP",
        Event._sync_bitmaps 0] := by
  decide

/-- C17 (amended): for every locally known record that is not DOWN and every
BASIL node for it, the reason is "Low RealMemory" when strict validation finds
the memory below the baseline, else "Low CPUs" when it finds the cpus below
the baseline, else "basil state not UP" when the status is not "UP", else
"basil role not BATCH" when the role is not "BATCH" (the role is only tested
when the status is "UP"), else there is none; when there is a reason the
iteration passes it to `set_node_down`, between the stamp of
`last_node_update` and `_sync_bitmaps`, and otherwise records no call. -/
theorem C17_reason_priority (st : slurmctld) (b : basil_node) (i : Nat) (n : node_record)
    (hfind : find_node_record st.node_record_table_ptr b.basil_node_name = some i)
    (hget : st.node_record_table_ptr[i]? = some n)
    (hup : n.state &&& NODE_STATE_BASE ≠ NODE_STATE_DOWN) :
    HAVE_BASIL.basil_reason st.fast_schedule n b =
      (if st.fast_schedule ≠ 2 ∧ b.basil_memory < n.config_ptr.real_memory then
        some "Low RealMemory"
      else if st.fast_schedule ≠ 2 ∧ b.basil_cpus < n.config_ptr.cpus then some "Low CPUs"
      else if b.basil_state ≠ "UP" then some "basil state not UP"
      else if b.basil_role ≠ "BATCH" then some "basil role not BATCH"
      else none) ∧
    (HAVE_BASIL.basil_query_node st b).calls = st.calls ++
      (match HAVE_BASIL.basil_reason st.fast_schedule n b with
        | none => []
        | some r => [Event.last_node_update, Event.set_node_down b.basil_node_name r,
            Event._sync_bitmaps i]) := by
  obtain ⟨n', hget', hname⟩ := find_node_record_some _ _ _ hfind
  rw [hget] at hget'
  cases hget'
  refine ⟨HAVE_BASIL.basil_reason_not_down _ n b hup, ?_⟩
  rw [HAVE_BASIL.basil_query_node_calls st b i n hfind hget, HAVE_BASIL.node_calls, hname]

/-- Witness of C17 (amended): "n1" not DOWN, status "UP", role "INTERACTIVE",
no capacity defect: the role reason. -/
theorem C17_reason_priority_witness :
    (HAVE_BASIL.basil_query_node scenario_state
        { scenario_A with basil_role := "INTERACTIVE" }).calls = scenario_state.calls ++
      (match HAVE_BASIL.basil_reason scenario_state.fast_schedule scenario_n1
          { scenario_A with basil_role := "INTERACTIVE" } with
        | none => []
        | some r => [Event.last_node_update, Event.set_node_down "n1" r,
            Event._sync_bitmaps 0]) :=
  (C17_reason_priority scenario_state { scenario_A with basil_role := "INTERACTIVE" } 0
    scenario_n1 (by decide) (by decide) (by decide)).2

end Slurm

namespace Slurm

/-- C18: capacity fields track the allocator. For every locally known record
and every BASIL node `b` for it, whatever the state of the record, the value
of `fast_schedule` and the reason produced: after the iteration for `b` the
record's cpus and real_memory are the reported values; and after a pass in
which `b` is the last BASIL node of that name, they are the values of `b`, so
they do not exceed them. -/
theorem C18_capacity_fields_track_basil (st : slurmctld) (reply : basil_reply)
    (pre post : List basil_node) (b : basil_node) (i : Nat) (n : node_record)
    (hnodes : reply.nodes = pre ++ b :: post)
    (hpost : ∀ x ∈ post, x.basil_node_name ≠ b.basil_node_name)
    (hfind : find_node_record st.node_record_table_ptr b.basil_node_name = some i)
    (hget : st.node_record_table_ptr[i]? = some n) :
    (∃ m, (HAVE_BASIL.basil_query_node st b).node_record_table_ptr[i]? = some m ∧
      m.cpus = b.basil_cpus ∧ m.real_memory = b.basil_memory) ∧
    ∃ m, (HAVE_BASIL.basil_query false reply st).2.node_record_table_ptr[i]? = some m ∧
      m.cpus = b.basil_cpus ∧ m.real_memory = b.basil_memory ∧
      m.cpus ≤ b.basil_cpus ∧ m.real_memory ≤ b.basil_memory := by
  obtain ⟨n', hget', hname⟩ := find_node_record_some _ _ _ hfind
  rw [hget] at hget'
  cases hget'
  refine ⟨⟨_, HAVE_BASIL.basil_query_node_get st b i n hfind hget, ?_⟩, ?_⟩
  · rw [HAVE_BASIL.node_step_eq]
    exact ⟨rfl, rfl⟩
  · rw [HAVE_BASIL.basil_query_eq, hnodes]
    refine ⟨_, HAVE_BASIL.node_loop_get _ _ _ i n hget, ?_⟩
    rw [if_pos (by rw [hname]; exact hfind), HAVE_BASIL.node_fold_append,
      HAVE_BASIL.node_fold_cons, if_pos (by rw [HAVE_BASIL.node_fold_name, hname]),
      HAVE_BASIL.node_fold_other _ post _
        (by rw [HAVE_BASIL.node_step_name, HAVE_BASIL.node_fold_name, hname]; exact hpost),
      HAVE_BASIL.node_step_eq]
    exact ⟨rfl, rfl, le_refl _, le_refl _⟩

/-- Witness of C18: "n1" already DOWN, reported first with 8 cpus and then
with 16 cpus and 65536 MB. -/
theorem C18_capacity_fields_track_basil_witness :
    ∃ m, (HAVE_BASIL.basil_query false ⟨[scenario_B, scenario_A], []⟩
        { scenario_state with
          node_record_table_ptr := [{ scenario_n1 with state := 1 }] }).2.node_record_table_ptr[0]?
        = some m ∧
      m.cpus = 16 ∧ m.real_memory = 65536 ∧ m.cpus ≤ 16 ∧ m.real_memory ≤ 65536 :=
  (C18_capacity_fields_track_basil
    { scenario_state with node_record_table_ptr := [{ scenario_n1 with state := 1 }] }
    ⟨[scenario_B, scenario_A], []⟩ [scenario_B] [] scenario_A 0 { scenario_n1 with state := 1 }
    rfl (by decide) (by decide) (by decide)).2

namespace NO_BASIL

theorem strchr_none (s : List Char) (c : Char) (h : c ∉ s) : strchr s c = none := by
  induction s with
  | nil => rfl
  | cons x xs ih =>
    simp only [List.mem_cons, not_or] at h
    unfold strchr
    rw [if_neg (fun hx => h.1 hx.symm)]
    exact ih h.2

/-- `strchr` stops at the first occurrence of the character. -/
theorem strchr_first (pre post : List Char) (c : Char) (h : c ∉ pre) :
    strchr (pre ++ c :: post) c = some (c :: post) := by
  induction pre with
  | nil => simp [strchr]
  | cons x xs ih =>
    simp only [List.mem_cons, not_or] at h
    simp only [List.cons_append]
    unfold strchr
    rw [if_neg (fun hx => h.1 hx.symm)]
    exact ih h.2

/-- The job loop of `basil_query` computes the maximum of the counter and the
numbers `job_res_id` of the jobs. -/
theorem query_loop_eq_max (jobs : List job_record) (c : Int) :
    jobs.foldl basil_query_job c = (jobs.filterMap job_res_id).foldl max c := by
  induction jobs generalizing c with
  | nil => rfl
  | cons j rest ih =>
    rw [List.foldl_cons, ih]
    unfold basil_query_job
    cases hj : job_res_id j with
    | none => simp [List.filterMap_cons, hj]
    | some k => simp [List.filterMap_cons, hj]

end NO_BASIL

/-- C19 (the claim as stated fails): from counter 0 with a single job holding
"RES_3_7", `basil_query` without HAVE_BASIL leaves `last_res_id = 3`, the
number after the first '_', and not 7. -/
theorem C19_bootstrap_reads_after_first_separator :
    (NO_BASIL.basil_query ⟨[], [⟨1, "RES_3_7"⟩], 1, 0, []⟩).2.last_res_id = 3 := by
  decide

/-- C19 (amended): starting from counter 0, for every job table, after
`basil_query` without HAVE_BASIL `last_res_id` is the maximum of 0 and the
numbers `job_res_id` of the jobs, where the number of a job whose reservation
id contains '_' is the `atoi` of the text that follows the first '_' of the id,
and a job whose id has no '_' has no number and is ignored. -/
theorem C19_bootstrap_after_first_separator (st : slurmctld) (h0 : st.last_res_id = 0) :
    (NO_BASIL.basil_query st).2.last_res_id
      = (st.job_list.filterMap NO_BASIL.job_res_id).foldl max 0 ∧
    (∀ (j : job_record) (pre post : List Char),
      j.select_jobinfo.toList = pre ++ '_' :: post → '_' ∉ pre →
      NO_BASIL.job_res_id j = some (atoi post)) ∧
    (∀ j : job_record, '_' ∉ j.select_jobinfo.toList → NO_BASIL.job_res_id j = none) := by
  refine ⟨?_, ?_, ?_⟩
  · show st.job_list.foldl NO_BASIL.basil_query_job st.last_res_id = _
    rw [h0, NO_BASIL.query_loop_eq_max]
  · intro j pre post hj hpre
    unfold NO_BASIL.job_res_id
    simp only [hj, NO_BASIL.strchr_first pre post '_' hpre, List.drop_succ_cons, List.drop_zero]
  · intro j hj
    unfold NO_BASIL.job_res_id
    simp only [NO_BASIL.strchr_none _ _ hj]

/-- Witness of C19 (amended): jobs holding "RES_3_7", "none" and "RES_5" give 5. -/
theorem C19_bootstrap_after_first_separator_witness :
    (NO_BASIL.basil_query ⟨[], [⟨1, "RES_3_7"⟩, ⟨2, "none"⟩, ⟨3, "RES_5"⟩], 1, 0, []⟩).2.last_res_id
      = ([⟨1, "RES_3_7"⟩, ⟨2, "none"⟩, ⟨3, "RES_5"⟩].filterMap NO_BASIL.job_res_id).foldl max 0 :=
  (C19_bootstrap_after_first_separator
    ⟨[], [⟨1, "RES_3_7"⟩, ⟨2, "none"⟩, ⟨3, "RES_5"⟩], 1, 0, []⟩ rfl).1

namespace HAVE_BASIL

theorem node_pass_unknown (f : Nat) (table : List node_record) (b : basil_node)
    (h : find_node_record table b.basil_node_name = none) :
    node_pass f table b = table ∧ pass_calls f table b = [] := by
  simp [node_pass, pass_calls, h]

end HAVE_BASIL

/-- C20: unknown allocator nodes are skipped. For every state and every BASIL
node whose name `find_node_record` does not find: the iteration for it leaves
the whole state as it is (every record, the number of records, the record of
calls: no `set_node_down`, no `_sync_bitmaps`), and a pass over a reply that
holds it does exactly what the pass does over the reply without it: the
BASIL nodes after it are processed as if it were not there. -/
theorem C20_unknown_node_is_skipped (st : slurmctld) (pre post : List basil_node)
    (b : basil_node) (rs : List String)
    (hnone : find_node_record st.node_record_table_ptr b.basil_node_name = none) :
    HAVE_BASIL.basil_query_node st b = st ∧
    node_record_cnt (HAVE_BASIL.basil_query_node st b) = node_record_cnt st ∧
    (HAVE_BASIL.basil_query_node st b).calls = st.calls ∧
    HAVE_BASIL.basil_query false ⟨pre ++ b :: post, rs⟩ st
      = HAVE_BASIL.basil_query false ⟨pre ++ post, rs⟩ st := by
  have hst : HAVE_BASIL.basil_query_node st b = st := by
    simp [HAVE_BASIL.basil_query_node, hnone]
  have hmid := HAVE_BASIL.node_pass_unknown st.fast_schedule
    (pre.foldl (HAVE_BASIL.node_pass st.fast_schedule) st.node_record_table_ptr) b
    (by rw [HAVE_BASIL.node_loop_find]; exact hnone)
  refine ⟨hst, by rw [hst], by rw [hst], ?_⟩
  rw [HAVE_BASIL.basil_query_eq, HAVE_BASIL.basil_query_eq]
  simp only [List.foldl_append, List.foldl_cons, HAVE_BASIL.loop_calls_append,
    HAVE_BASIL.loop_calls, hmid.1, hmid.2, List.nil_append]

/-- Witness of C20: the node table of the scenarios and a BASIL node "n9". -/
theorem C20_unknown_node_is_skipped_witness :
    HAVE_BASIL.basil_query false
        ⟨[scenario_B] ++ { scenario_A with basil_node_name := "n9" } :: [scenario_A], []⟩
        scenario_state
      = HAVE_BASIL.basil_query false ⟨[scenario_B] ++ [scenario_A], []⟩ scenario_state :=
  (C20_unknown_node_is_skipped scenario_state [scenario_B] [scenario_A]
    { scenario_A with basil_node_name := "n9" } [] (by decide)).2.2.2

end Slurm
